import Mathlib

/-!
Verification of the talk_to_data frontend (src/frontend, src/unnamed/part_003)
against its natural-language specification.  JavaScript values that cross the
JSON boundary (localStorage, SSE payloads) are embedded as the inductive
`JValue`; JS numbers that occur in this data (Date.now timestamps, counts)
are modelled as integers.  Stateful React code is embedded as explicit
state-passing functions, and fallible operations return Option.
-/

/-- A JSON value as produced/consumed by JSON.stringify / JSON.parse.
Numeric payloads in the chat data are integer timestamps and counts, so
numbers are modelled as `Int`. -/
inductive JValue where
  | null
  | bool (b : Bool)
  | num (n : Int)
  | str (s : String)
  | arr (xs : List JValue)
  | obj (fs : List (String × JValue))
deriving Repr

/-- Serialization of one character inside a JSON string literal
(the escapes JSON.stringify emits for the characters that need them). -/
def escChar (c : Char) : List Char :=
  if c = '"' then ['\\', '"']
  else if c = '\\' then ['\\', '\\']
  else if c = '\n' then ['\\', 'n']
  else if c = '\r' then ['\\', 'r']
  else if c = '\t' then ['\\', 't']
  else [c]

/-- Escape a whole string body. -/
def escList : List Char → List Char
  | [] => []
  | c :: rest => escChar c ++ escList rest

/-- Decimal digit to character. -/
def digitCh (d : Nat) : Char :=
  match d with
  | 0 => '0' | 1 => '1' | 2 => '2' | 3 => '3' | 4 => '4'
  | 5 => '5' | 6 => '6' | 7 => '7' | 8 => '8' | _ => '9'

/-- Decimal serialization of a natural number (most significant digit first). -/
def natSerL (n : Nat) : List Char :=
  if n < 10 then [digitCh n]
  else natSerL (n / 10) ++ [digitCh (n % 10)]
decreasing_by exact Nat.div_lt_self (by omega) (by omega)

/-- Decimal serialization of an integer. -/
def intSerL (n : Int) : List Char :=
  if n < 0 then '-' :: natSerL n.natAbs else natSerL n.toNat

mutual
/-- JSON.stringify, producing a character list. -/
def jSerL : JValue → List Char
  | .null => ['n', 'u', 'l', 'l']
  | .bool b => if b then ['t', 'r', 'u', 'e'] else ['f', 'a', 'l', 's', 'e']
  | .num n => intSerL n
  | .str s => '"' :: (escList s.toList ++ ['"'])
  | .arr xs => '[' :: (jSerArr xs ++ [']'])
  | .obj fs => '{' :: (jSerObj fs ++ ['}'])

/-- Serialize array elements, comma separated. -/
def jSerArr : List JValue → List Char
  | [] => []
  | [x] => jSerL x
  | x :: y :: xs => jSerL x ++ ',' :: jSerArr (y :: xs)

/-- Serialize object fields, comma separated. -/
def jSerObj : List (String × JValue) → List Char
  | [] => []
  | [(k, v)] => '"' :: (escList k.toList ++ '"' :: ':' :: jSerL v)
  | (k, v) :: f :: fs =>
      '"' :: (escList k.toList ++ '"' :: ':' :: jSerL v) ++ ',' :: jSerObj (f :: fs)
end

/-- JSON.stringify as a String-valued function. -/
def jStringify (v : JValue) : String := String.mk (jSerL v)

/-- Is `c` a decimal digit? -/
def isDigitCh (c : Char) : Bool := '0' ≤ c && c ≤ '9'

/-- Split a leading run of digits off a character list. -/
def takeDigits : List Char → List Char × List Char
  | [] => ([], [])
  | c :: rest =>
    if isDigitCh c then
      let p := takeDigits rest
      (c :: p.1, p.2)
    else ([], c :: rest)

/-- Numeric value of a digit character. -/
def digitVal (c : Char) : Nat := c.toNat - 48

/-- Numeric value of a digit string (most significant first). -/
def digitsVal (ds : List Char) : Nat := ds.foldl (fun a c => a * 10 + digitVal c) 0

/-- Unescape one character after a backslash in a JSON string literal. -/
def unescCh (c : Char) : Option Char :=
  if c = '"' then some '"'
  else if c = '\\' then some '\\'
  else if c = '/' then some '/'
  else if c = 'n' then some '\n'
  else if c = 'r' then some '\r'
  else if c = 't' then some '\t'
  else if c = 'b' then some (Char.ofNat 8)
  else if c = 'f' then some (Char.ofNat 12)
  else none

/-- Parse the body of a JSON string literal (after the opening quote),
accumulating in reverse; returns the decoded characters and the remainder
after the closing quote. -/
def parseStrAux : List Char → List Char → Option (List Char × List Char)
  | _, [] => none
  | acc, c :: rest =>
    if c = '"' then some (acc.reverse, rest)
    else if c = '\\' then
      match rest with
      | [] => none
      | e :: rest2 =>
        match unescCh e with
        | some d => parseStrAux (d :: acc) rest2
        | none => none
    else parseStrAux (c :: acc) rest

/-- Parse a JSON number (integer part only; numeric chat data is integral). -/
def parseNumL (neg : Bool) (cs : List Char) : Option (JValue × List Char) :=
  let p := takeDigits cs
  if p.1.isEmpty then none
  else some (.num (if neg then -(digitsVal p.1 : Int) else (digitsVal p.1 : Int)), p.2)

mutual
/-- Fuel-bounded JSON value recognizer (model of JSON.parse's grammar for
the values this application stores). -/
def parseVal : Nat → List Char → Option (JValue × List Char)
  | 0, _ => none
  | fuel + 1, cs =>
    match cs with
    | [] => none
    | c :: r =>
      if isDigitCh c then parseNumL false (c :: r)
      else if c = '-' then parseNumL true r
      else if c = '"' then
        match parseStrAux [] r with
        | some (s, r2) => some (.str (String.mk s), r2)
        | none => none
      else if c = '[' then
        match r with
        | ']' :: r2 => some (.arr [], r2)
        | _ =>
          match parseElems fuel r with
          | some (xs, r2) => some (.arr xs, r2)
          | none => none
      else if c = '{' then
        match r with
        | '}' :: r2 => some (.obj [], r2)
        | _ =>
          match parseFields fuel r with
          | some (fs, r2) => some (.obj fs, r2)
          | none => none
      else if c = 'n' then
        match r with
        | 'u' :: 'l' :: 'l' :: r2 => some (.null, r2)
        | _ => none
      else if c = 't' then
        match r with
        | 'r' :: 'u' :: 'e' :: r2 => some (.bool true, r2)
        | _ => none
      else if c = 'f' then
        match r with
        | 'a' :: 'l' :: 's' :: 'e' :: r2 => some (.bool false, r2)
        | _ => none
      else none

/-- Parse one-or-more comma-separated array elements up to the closing bracket. -/
def parseElems : Nat → List Char → Option (List JValue × List Char)
  | 0, _ => none
  | fuel + 1, cs =>
    match parseVal fuel cs with
    | some (v, r) =>
      match r with
      | ',' :: r2 =>
        match parseElems fuel r2 with
        | some (xs, r3) => some (v :: xs, r3)
        | none => none
      | ']' :: r2 => some ([v], r2)
      | _ => none
    | none => none

/-- Parse one-or-more comma-separated object fields up to the closing brace. -/
def parseFields : Nat → List Char → Option (List (String × JValue) × List Char)
  | 0, _ => none
  | fuel + 1, cs =>
    match cs with
    | '"' :: r =>
      match parseStrAux [] r with
      | some (k, r1) =>
        match r1 with
        | ':' :: r2 =>
          match parseVal fuel r2 with
          | some (v, r3) =>
            match r3 with
            | ',' :: r4 =>
              match parseFields fuel r4 with
              | some (fs, r5) => some ((String.mk k, v) :: fs, r5)
              | none => none
            | '}' :: r4 => some ([(String.mk k, v)], r4)
            | _ => none
          | none => none
        | _ => none
      | none => none
    | _ => none
end

/-- JSON.parse on a character list: the whole input must form one value. -/
def jParseL (cs : List Char) : Option JValue :=
  match parseVal (cs.length + 1) cs with
  | some (v, []) => some v
  | _ => none

/-- JSON.parse on a string. -/
def jParse (s : String) : Option JValue := jParseL s.toList

/-- The head of the remainder is not a digit (so a number parse stops there). -/
def headNotDigit : List Char → Bool
  | [] => true
  | c :: _ => !isDigitCh c

mutual
/-- Fuel needed by `parseVal` to reparse a serialized value. -/
def jWeight : JValue → Nat
  | .arr [] => 1
  | .arr (x :: xs) => 1 + jWeightElems (x :: xs)
  | .obj [] => 1
  | .obj (f :: fs) => 1 + jWeightFields (f :: fs)
  | _ => 1

/-- Fuel needed by `parseElems`. -/
def jWeightElems : List JValue → Nat
  | [] => 0
  | x :: xs => 1 + jWeight x + jWeightElems xs

/-- Fuel needed by `parseFields`. -/
def jWeightFields : List (String × JValue) → Nat
  | [] => 0
  | kv :: fs => 1 + jWeight kv.2 + jWeightFields fs
end

/-!
## Chat persistence (src/unnamed/part_003, `loadChats` / `saveChats`)

`localStorage` is modelled as `Option String` (`none` = key absent).
`JSON.parse` throwing is modelled by `jParse` returning `none`; the
surrounding JS `try`/`catch` becomes the `none → []` fallback, so the
Lean model is total exactly where the JS never throws.
-/

/-- `loadChats`: `const saved = localStorage.getItem(STORAGE_KEY);
return saved ? JSON.parse(saved) : [];` with `catch { return []; }`.
An empty string is falsy in JS, hence also yields `[]`. -/
def loadChats (storage : Option String) : JValue :=
  match storage with
  | none => .arr []
  | some s =>
    if s = "" then .arr []
    else
      match jParse s with
      | some v => v
      | none => .arr []

/-- `saveChats`: `localStorage.setItem(STORAGE_KEY, JSON.stringify(chats))`
(the `catch` branch only logs). Returns the new storage content. -/
def saveChats (chats : List JValue) (_storage : Option String) : Option String :=
  some (jStringify (.arr chats))

/-!
## SSE stream parsing (src/frontend/src/services/api.js, `streamQuery`)

Strings are modelled as character lists (post-TextDecoder). The reader
delivers a list of chunks; `streamQuery` buffers the last incomplete line,
splits on newlines, and runs the per-line event loop — whose
`currentEvent`/`currentData` state is declared inside the chunk loop and is
therefore reset at every chunk, exactly as in the source.
-/

/-- JS `String.split('\n')` on a character list. -/
def splitNlL : List Char → List (List Char)
  | [] => [[]]
  | c :: rest =>
    match splitNlL rest with
    | [] => [[]]
    | l :: ls => if c = '\n' then [] :: l :: ls else (c :: l) :: ls

/-- JS `String.startsWith` (prefix test). -/
def startsWithL : List Char → List Char → Bool
  | [], _ => true
  | _ :: _, [] => false
  | p :: ps, c :: cs => if p = c then startsWithL ps cs else false

/-- JS whitespace for `trim` (the characters that occur in this data). -/
def isWspCh (c : Char) : Bool := c = ' ' || c = '\t' || c = '\n' || c = '\r'

/-- JS `String.trim` on a character list. -/
def trimL (l : List Char) : List Char :=
  ((l.dropWhile isWspCh).reverse.dropWhile isWspCh).reverse

/-- The `event: ` field header. -/
def evHdr : List Char := ['e', 'v', 'e', 'n', 't', ':', ' ']

/-- The `data: ` field header. -/
def datHdr : List Char := ['d', 'a', 't', 'a', ':', ' ']

/-- The terminal event name. -/
def doneL : List Char := ['d', 'o', 'n', 'e']

/-- `try { parsedData = JSON.parse(currentData) } catch { parsedData = currentData }`. -/
def jsonOrStr (l : List Char) : JValue :=
  match jParseL l with
  | some v => v
  | none => .str (String.mk l)

/-- The per-chunk parser state: `currentEvent` (JS `null` = `none`) and the
accumulated `currentData`. -/
structure SseState where
  ev : Option (List Char)
  dat : List Char

/-- The `for (const line of lines)` loop of `streamQuery`. Returns the
`(eventType, parsedData)` pairs passed to `onEvent`, in order, and whether
the function returned early because a `done` event was dispatched. -/
def procLines : SseState → List (List Char) → List (String × JValue) × Bool
  | _, [] => ([], false)
  | st, line :: rest =>
    if startsWithL evHdr line = true then
      match st.ev with
      | some e =>
        if e ≠ [] ∧ st.dat ≠ [] then
          let out := (String.mk e, jsonOrStr st.dat)
          if e = doneL then ([out], true)
          else
            let p := procLines ⟨some (trimL (line.drop 7)), []⟩ rest
            (out :: p.1, p.2)
        else procLines ⟨some (trimL (line.drop 7)), []⟩ rest
      | none => procLines ⟨some (trimL (line.drop 7)), []⟩ rest
    else if startsWithL datHdr line = true then
      procLines ⟨st.ev, st.dat ++ line.drop 6⟩ rest
    else if line = [] then
      match st.ev with
      | some e =>
        if e ≠ [] ∧ st.dat ≠ [] then
          let out := (String.mk e, jsonOrStr st.dat)
          if e = doneL then ([out], true)
          else
            let p := procLines ⟨none, []⟩ rest
            (out :: p.1, p.2)
        else procLines st rest
      | none => procLines st rest
    else procLines st rest

/-- The `while (true)` reader loop: append the chunk to the buffer, split on
newlines, keep the trailing incomplete line as the new buffer, and process
the complete lines with a fresh (reset) line-loop state. -/
def procChunks : List Char → List (List Char) → List (String × JValue) × Bool
  | _, [] => ([], false)
  | buffer, c :: cs =>
    let lines := splitNlL (buffer ++ c)
    let buf2 := lines.getLast?.getD []
    let body := lines.dropLast
    let p := procLines ⟨none, []⟩ body
    if p.2 then (p.1, true)
    else
      let q := procChunks buf2 cs
      (p.1 ++ q.1, q.2)

/-- What the transport does during one `streamQuery` call: the response is
not ok, or the body is read to completion as a chunk list, or the fetch /
read throws after delivering some chunks. -/
inductive FetchBehavior where
  | httpError (status : Nat)
  | stream (chunks : List (List Char))
  | streamAbort (chunks : List (List Char)) (msg : String)

/-- Whether the promise returned by `streamQuery` resolves or rejects. -/
inductive PromiseOutcome where
  | resolved
  | rejected (msg : String)

/-- `streamQuery`'s observable behavior: the `(eventType, data)` pairs
dispatched to `onEvent`, in order, and the promise outcome. A thrown
error is caught, `onEvent('error', error.message)` is dispatched, and the
error is rethrown (api.js catch block); if `done` was already dispatched
the function has returned and no error path runs. -/
def streamQuery (fb : FetchBehavior) : List (String × JValue) × PromiseOutcome :=
  match fb with
  | .httpError status =>
      ([("error", .str ("HTTP error! status: " ++ toString status))],
        .rejected ("HTTP error! status: " ++ toString status))
  | .stream chunks => ((procChunks [] chunks).1, .resolved)
  | .streamAbort chunks msg =>
      let p := procChunks [] chunks
      if p.2 then (p.1, .resolved)
      else (p.1 ++ [("error", .str msg)], .rejected msg)

/-- A dispatched-events list together with the early-return flag is
well-formed with respect to `done`: if the loop did not return early there
is no `done` among the dispatched events, and if it did, `done` is the last
dispatched event and occurs nowhere earlier. -/
def DoneOk (p : List (String × JValue) × Bool) : Prop :=
  (p.2 = false → ∀ e ∈ p.1, e.1 ≠ "done") ∧
  (p.2 = true → ∃ pre q, p.1 = pre ++ [("done", q)] ∧ ∀ e ∈ pre, e.1 ≠ "done")

/-- The wire form of one SSE event with a single data line. -/
def renderEventL (n d : List Char) : List Char :=
  evHdr ++ n ++ '\n' :: (datHdr ++ d ++ ['\n', '\n'])

/-- The wire form of a whole SSE stream. -/
def renderStreamL : List (List Char × List Char) → List Char
  | [] => []
  | (n, d) :: es => renderEventL n d ++ renderStreamL es

/-- The line sequence of a rendered stream (without the final empty split
piece). -/
def linesOf : List (List Char × List Char) → List (List Char)
  | [] => []
  | (n, d) :: es => (evHdr ++ n) :: (datHdr ++ d) :: [] :: linesOf es

/-!
## SqlGuard (Modelled from the spec)

The backend (`backend/agent_engine.py`, the guard, executor and engine
listed in the README architecture) is not among the sources; only the spec
describes it. `SqlGuard.check` below is modelled from spec section 4.5:
policy rules evaluated in order — multi-statement batches, first-keyword
allowlist, write/DDL denylist scanned outside quotes, unknown table names.
-/

/-- A guard verdict: Allowed or Rejected with a reason. -/
inductive Verdict where
  | allowed
  | rejected (reason : String)

/-- Is the verdict a rejection? -/
def Verdict.isRejected : Verdict → Bool
  | .allowed => false
  | .rejected _ => true

/-- The read-only statement keywords the guard accepts first. -/
def allowKws : List String := ["SELECT", "WITH", "EXPLAIN"]

/-- The write/DDL denylist of spec rule 3 (PRAGMA when mutating). -/
def denyKws : List String :=
  ["INSERT", "UPDATE", "DELETE", "DROP", "ALTER", "CREATE", "TRUNCATE",
   "REPLACE", "GRANT", "ATTACH", "PRAGMA"]

/-- Remove the contents of single- and double-quoted spans, so keyword
scanning cannot be fooled by quoted strings (spec: scan defensively for
keywords hidden inside strings). State: 0 outside, 1 inside single quotes,
2 inside double quotes. -/
def stripQuoted : Nat → List Char → List Char
  | _, [] => []
  | 0, c :: r =>
    if c = '\'' then stripQuoted 1 r
    else if c = '"' then stripQuoted 2 r
    else c :: stripQuoted 0 r
  | 1, c :: r => if c = '\'' then stripQuoted 0 r else stripQuoted 1 r
  | _, c :: r => if c = '"' then stripQuoted 0 r else stripQuoted 2 r

/-- Split a character list at every character satisfying `p`. -/
def splitOnPred (p : Char → Bool) : List Char → List (List Char)
  | [] => [[]]
  | c :: rest =>
    match splitOnPred p rest with
    | [] => [[]]
    | l :: ls => if p c then [] :: l :: ls else (c :: l) :: ls

/-- Upper-case a string characterwise. -/
def upperStr (s : String) : String := String.mk (s.toList.map Char.toUpper)

/-- Whitespace tokenization of a character list. -/
def tokensOf (cs : List Char) : List String :=
  ((splitOnPred isWspCh cs).filter (fun t => t ≠ [])).map String.mk

/-- Whitespace tokenization of a SQL string. -/
def sqlTokens (s : String) : List String := tokensOf s.toList

/-- The first statement keyword, upper-cased. -/
def firstKeyword (s : String) : Option String :=
  (sqlTokens s).head?.map upperStr

/-- Number of nonempty top-level statements (split on semicolons outside
quotes; a trailing semicolon does not create a second statement). -/
def stmtCount (s : String) : Nat :=
  ((splitOnPred (fun c => c = ';') (stripQuoted 0 s.toList)).filter
    (fun t => trimL t ≠ [])).length

/-- Strip identifier punctuation for table-name comparison. -/
def stripPunct (s : String) : String :=
  String.mk (s.toList.filter (fun c => c ≠ '(' ∧ c ≠ ')' ∧ c ≠ ',' ∧ c ≠ ';'))

/-- Tokens that appear right after FROM or JOIN: the referenced tables. -/
def tableRefs : List String → List String
  | [] => []
  | t :: rest =>
    if upperStr t = "FROM" ∨ upperStr t = "JOIN" then
      (match rest with
       | [] => []
       | u :: _ => [stripPunct u]) ++ tableRefs rest
    else tableRefs rest

namespace SqlGuard

/-- Modelled from the spec: `SqlGuard.check` (spec 4.5), the static
read-only validator of the missing backend. Rules in order: reject
multi-statement batches; reject unless the first keyword is SELECT, WITH
or EXPLAIN; reject any denylisted write/DDL keyword at top level (scanned
with quoted spans removed); reject references to tables outside the
current schema. -/
def check (schema : List String) (s : String) : Verdict :=
  if stmtCount s > 1 then .rejected "multiple top-level statements"
  else
    match firstKeyword s with
    | none => .rejected "empty statement"
    | some kw =>
      if kw ∉ allowKws then
        .rejected ("statement must start with SELECT, WITH or EXPLAIN, got " ++ kw)
      else if (tokensOf (stripQuoted 0 s.toList)).any
          (fun t => decide (upperStr t ∈ denyKws)) then
        .rejected "write/DDL keyword present"
      else if (tableRefs (sqlTokens s)).any (fun t => decide (t ∉ schema)) then
        .rejected "unknown table referenced"
      else .allowed

end SqlGuard

/-!
## OrchestrationEngine (Modelled from the spec)

Modelled from the spec: the backend `OrchestrationEngine` (spec 4.7) is not
among the sources. Collaborator behavior for each attempt (completion
result, executor outcome, follow-up-suggestion result) is supplied as data;
the engine consumes one `AttemptData` per attempt, retries on guard
rejection and retryable execution failures while budget remains, aborts on
fatal completion errors and non-retryable execution failures, and always
ends the event stream with `error`+`done` or success events+`done`.
-/

/-- Result of one `CompletionClient.complete` call (spec 4.3): fatal errors
abort; otherwise `SqlExtractor.extract` (spec 4.4) yields a reasoning trace
and possibly no SQL. -/
inductive CompletionRes where
  | fatal (msg : String)
  | ok (reasoning : String) (sqlText : Option String)

/-- Result of one `QueryExecutor.execute` call (spec 4.6): success with a
normalized table, or a failure that is retryable (syntax/schema) or not
(timeout/connection). -/
inductive ExecRes where
  | success (columns : List String) (rows : List (List String))
  | failure (retryable : Bool) (msg : String)

/-- What the collaborators would deliver for one attempt. `sugg` is the
follow-up-suggestion completion on success, `none` when that best-effort
call fails (its failure is swallowed, spec 4.7). -/
structure AttemptData where
  comp : CompletionRes
  exec : ExecRes
  sugg : Option (List String)

/-- One typed event of the engine's stream (spec section 6). -/
inductive EngineEvent where
  | status (s : String)
  | model (s : String)
  | thought (s : String)
  | sql (s : String)
  | table (columns : List String) (rows : List (List String))
  | suggestions (xs : List String)
  | summary (s : String)
  | error (s : String)
  | done

/-- The observable outcome of one orchestration run. -/
structure RunOut where
  events : List EngineEvent
  executed : List String
  attemptsUsed : Nat

/-- Modelled from the spec: one orchestration run (spec 4.7). `retries` is
the remaining retry budget; `attempts` supplies collaborator behavior per
attempt. SQL is executed only after `check` returns Allowed, and exactly
one `done` terminates the stream on every path. -/
def runEngine (check : String → Verdict) (retries : Nat)
    (attempts : List AttemptData) : RunOut :=
  match attempts with
  | [] => ⟨[.error "model produced no completion", .done], [], 0⟩
  | a :: rest =>
    match a.comp with
    | .fatal m => ⟨[.error m, .done], [], 1⟩
    | .ok reasoning sqlOpt =>
      let pre := [EngineEvent.status "Generating SQL", EngineEvent.thought reasoning]
      match sqlOpt with
      | none =>
        match retries with
        | 0 => ⟨pre ++ [.error "no SQL produced", .done], [], 1⟩
        | r + 1 =>
          let o := runEngine check r rest
          ⟨pre ++ o.events, o.executed, o.attemptsUsed + 1⟩
      | some q =>
        let pre2 := pre ++ [EngineEvent.sql q]
        match check q with
        | .rejected reason =>
          match retries with
          | 0 => ⟨pre2 ++ [.error reason, .done], [], 1⟩
          | r + 1 =>
            let o := runEngine check r rest
            ⟨pre2 ++ o.events, o.executed, o.attemptsUsed + 1⟩
        | .allowed =>
          match a.exec with
          | .success cols rows =>
            ⟨pre2 ++ [.table cols rows] ++
              (match a.sugg with
               | some xs => [EngineEvent.suggestions xs]
               | none => []) ++ [.done], [q], 1⟩
          | .failure true m =>
            match retries with
            | 0 => ⟨pre2 ++ [.error m, .done], [q], 1⟩
            | r + 1 =>
              let o := runEngine check r rest
              ⟨pre2 ++ o.events, q :: o.executed, o.attemptsUsed + 1⟩
          | .failure false m => ⟨pre2 ++ [.error m, .done], [q], 1⟩

/-- Is this the terminal `done` event? -/
def isDoneEv : EngineEvent → Bool
  | .done => true
  | _ => false

/-!
## Chat event reducer (src/unnamed/part_003, `handleSubmit`'s onEvent switch)
-/

/-- JS truthiness of a JSON value. -/
def jTruthy : JValue → Bool
  | .null => false
  | .bool b => b
  | .num n => decide (n ≠ 0)
  | .str s => decide (s ≠ "")
  | .arr _ => true
  | .obj _ => true

/-- JS field access `v.k`: `none` models `undefined`. -/
def jField (v : JValue) (k : String) : Option JValue :=
  match v with
  | .obj fs => fs.lookup k
  | _ => none

/-- JS `v.k || []`. -/
def jFieldOr (v : JValue) (k : String) : JValue :=
  match jField v k with
  | some x => if jTruthy x then x else .arr []
  | none => .arr []

/-- JS template-string coercion; only string payloads occur in the `model`
events this is applied to, so the composite renderings are simplified. -/
def jsShow : JValue → String
  | .null => "null"
  | .bool true => "true"
  | .bool false => "false"
  | .num n => toString n
  | .str s => s
  | .arr _ => "[array]"
  | .obj _ => "[object Object]"

/-- Substring containment on character lists. -/
def containsSubL (pat : List Char) : List Char → Bool
  | [] => decide (pat = [])
  | c :: t => startsWithL pat (c :: t) || containsSubL pat t

/-- JS `String.includes`. -/
def jsIncludes (s pat : String) : Bool := containsSubL pat.toList s.toList

/-- The assistant-message fields the onEvent reducer touches
(part_003 lines 217-231 initialize them). -/
structure ClientMsg where
  content : String
  thought_trace : JValue
  sql_code : JValue
  columns : JValue
  results : JValue
  data_summary : JValue
  error : Option JValue
  isStreaming : Bool
  streamingStatus : JValue
  model_used : JValue

/-- The component state around the message that the reducer also updates:
`lastSql`, `suggestions`, `currentStatus`. -/
structure ChatState where
  msg : ClientMsg
  lastSql : Option JValue
  suggestions : JValue
  currentStatus : JValue

/-- The streaming assistant-message placeholder. -/
def initMsg : ClientMsg :=
  ⟨"", .str "", .str "", .arr [], .arr [], .str "", none, true,
    .str "Connecting...", .str ""⟩

/-- Initial component state for one submission. -/
def initChatState : ChatState := ⟨initMsg, none, .arr [], .str ""⟩

/-- One step of the onEvent switch (part_003 lines 242-253). -/
def applyEvent (st : ChatState) (ev : String × JValue) : ChatState :=
  if ev.1 = "status" then
    { st with msg := { st.msg with streamingStatus := ev.2 }, currentStatus := ev.2 }
  else if ev.1 = "model" then
    { st with msg := { st.msg with
        model_used := ev.2,
        content := "Processing with " ++ jsShow ev.2 ++ " model..." } }
  else if ev.1 = "thought" then
    { st with msg := { st.msg with thought_trace := ev.2 } }
  else if ev.1 = "sql" then
    { st with msg := { st.msg with sql_code := ev.2 }, lastSql := some ev.2 }
  else if ev.1 = "table" then
    { st with msg := { st.msg with
        columns := jFieldOr ev.2 "columns",
        results := jFieldOr ev.2 "results",
        content := "Processed using " ++
          (if jTruthy st.msg.model_used then jsShow st.msg.model_used else "unknown") ++
          " model." } }
  else if ev.1 = "suggestions" then
    { st with suggestions := (if jTruthy ev.2 then ev.2 else JValue.arr []) }
  else if ev.1 = "summary" then
    { st with msg := { st.msg with data_summary := ev.2 } }
  else if ev.1 = "error" then
    { st with msg := { st.msg with
        error := some ev.2,
        content := "Error processing query" } }
  else if ev.1 = "done" then
    { st with msg := { st.msg with
        isStreaming := false,
        streamingStatus := .str "",
        content := (if st.msg.content = "" ∨ jsIncludes st.msg.content "Processing" = true then
            "Processed using " ++
              (if jTruthy st.msg.model_used then jsShow st.msg.model_used else "unknown") ++
              " model."
          else st.msg.content) } }
  else st

/-- The payload of the most recent `sql` event in a dispatched sequence. -/
def lastSqlPayload (es : List (String × JValue)) : Option JValue :=
  ((es.filter (fun e => decide (e.1 = "sql"))).map (fun e => e.2)).getLast?

/-- The payloads of the `sql` events of an engine run, in order. -/
def sqlEventsOf (evs : List EngineEvent) : List String :=
  evs.filterMap (fun e => match e with | .sql s => some s | _ => none)

/-!
## Deep-analysis request validation (src/unnamed/part_003, `handleAnalysis`)
-/

/-- The component state handleAnalysis settles before any network call:
whether `/api/analyze` is called, and the analysis error/data it sets. -/
structure AnalysisOutcome where
  callsApi : Bool
  analysisError : Option String
  analysisData : Option JValue

/-- JS `Object.keys(v).length` for the values that can occur here. -/
def jsKeysCount : JValue → Nat
  | .obj fs => fs.length
  | .arr xs => xs.length
  | .str s => s.length
  | _ => 0

/-- JS `data[0] || {}`. -/
def jsFirstRecord (rows : List JValue) : JValue :=
  match rows.head? with
  | some v => if jTruthy v then v else .obj []
  | none => .obj []

/-- `handleAnalysis` (part_003 lines 277-310) up to the API-call decision:
`!data || data.length < 2` fails fast with the rows message;
`Object.keys(data[0] || {}).length < 2` fails fast with the columns
message; otherwise the endpoint is called. -/
def handleAnalysis (data : Option (List JValue)) : AnalysisOutcome :=
  match data with
  | none =>
    ⟨false, some "Analysis cannot be done - data is too short (need at least 2 rows)",
      none⟩
  | some rows =>
    if rows.length < 2 then
      ⟨false, some "Analysis cannot be done - data is too short (need at least 2 rows)",
        none⟩
    else if jsKeysCount (jsFirstRecord rows) < 2 then
      ⟨false,
        some "Analysis cannot be done - data is too short (need at least 2 columns)",
        none⟩
    else ⟨true, none, none⟩

/-!
## Stream request body (src/frontend/src/services/api.js, `streamQuery` body)
-/

/-- The JSON body streamQuery posts to `/api/query/stream`. -/
structure StreamBody where
  question : String
  llm_mode : String
  previous_sql : Option String

/-- Body construction (api.js lines 44-50): `previous_sql` is added only
when `previousSql` is truthy, i.e. non-null AND nonempty. -/
def mkStreamBody (question : String) (previousSql : Option String)
    (llmMode : String) : StreamBody :=
  { question := question, llm_mode := llmMode,
    previous_sql :=
      match previousSql with
      | some s => if s = "" then none else some s
      | none => none }

/-!
## Deep-analysis record building
   (src/frontend/src/components/ChatMessage.jsx, `handleDeepAnalysis`)

Result cells are strings (the claim's all-string-cells precondition is what
makes `val.trim()` total, so cells are typed `String` here). JS numbers
produced by `parseFloat` are modelled as exact rationals plus the two
infinities; NaN is `none`.
-/

/-- A JS number as produced by parseFloat (NaN excluded — it is `none`). -/
inductive JSNum where
  | finite (q : ℚ)
  | posInf
  | negInf
deriving DecidableEq, Repr

/-- A converted cell: a number or the original string. -/
inductive Cell where
  | num (n : JSNum)
  | str (s : String)
deriving DecidableEq, Repr

/-- Exponent part after `e`/`E` in parseFloat's grammar (missing digits
mean exponent 0, as parseFloat takes the longest valid numeric prefix). -/
def parseExpL (cs : List Char) : Int :=
  match cs with
  | '+' :: r => (digitsVal (takeDigits r).1 : Int)
  | '-' :: r => -(digitsVal (takeDigits r).1 : Int)
  | _ => (digitsVal (takeDigits cs).1 : Int)

/-- `parseFloat`: skip leading whitespace, optional sign, `Infinity` or
a decimal mantissa with optional fraction and exponent; `none` is NaN. -/
def parseFloatL (cs : List Char) : Option JSNum :=
  let t := cs.dropWhile isWspCh
  let sgn : Bool × List Char :=
    match t with
    | '+' :: r => (false, r)
    | '-' :: r => (true, r)
    | _ => (false, t)
  let r := sgn.2
  if startsWithL ['I', 'n', 'f', 'i', 'n', 'i', 't', 'y'] r = true then
    some (if sgn.1 then .negInf else .posInf)
  else
    let p1 := takeDigits r
    let p2 : List Char × List Char :=
      match p1.2 with
      | '.' :: rr => takeDigits rr
      | _ => ([], p1.2)
    if p1.1 = [] ∧ p2.1 = [] then none
    else
      let len2 := p2.1.length
      let mantNum : Int :=
        (digitsVal p1.1 : Int) * (10 : Int) ^ len2 + (digitsVal p2.1 : Int)
      let signedNum : Int := if sgn.1 then -mantNum else mantNum
      let expPart : Int :=
        match p2.2 with
        | 'e' :: rr => parseExpL rr
        | 'E' :: rr => parseExpL rr
        | _ => 0
      some (.finite (mkRat (signedNum * (10 : Int) ^ expPart.toNat)
        ((10 : Nat) ^ (len2 + (-expPart).toNat))))

/-- `const num = parseFloat(val);
obj[col] = !isNaN(num) && val.trim() !== '' ? num : val;` -/
def convertCell (val : String) : Cell :=
  match parseFloatL val.toList with
  | some n => if trimL val.toList ≠ [] then .num n else .str val
  | none => .str val

/-- JS `obj[col] = v`: overwrite an existing key in place, else append. -/
def jsSetKey (fs : List (String × Cell)) (k : String) (v : Cell) :
    List (String × Cell) :=
  if fs.any (fun p => decide (p.1 = k)) then
    fs.map (fun p => if p.1 = k then (k, v) else p)
  else fs ++ [(k, v)]

/-- The `message.columns.forEach((col, idx) => ...)` accumulation. -/
def rowToRecordAux (row : List String) : List String → Nat →
    List (String × Cell) → List (String × Cell)
  | [], _, acc => acc
  | col :: cols, i, acc =>
    rowToRecordAux row cols (i + 1) (jsSetKey acc col (convertCell (row.getD i "")))

/-- One result row converted to a column-name-keyed record. -/
def rowToRecord (columns : List String) (row : List String) :
    List (String × Cell) :=
  rowToRecordAux row columns 0 []

/-- `handleDeepAnalysis` (ChatMessage.jsx lines 316-336): `none` models the
early return (no results, empty results, or no onAnalysis callback);
otherwise the records and question passed to `onAnalysis`. -/
def handleDeepAnalysis (results : Option (List (List String)))
    (columns : List String) (hasCallback : Bool)
    (originalQuestion : Option String) :
    Option (List (List (String × Cell)) × String) :=
  match results with
  | none => none
  | some rows =>
    if rows.length = 0 ∨ hasCallback = false then none
    else some (rows.map (rowToRecord columns), originalQuestion.getD "")

theorem digitVal_digitCh (d : Nat) (h : d < 10) : digitVal (digitCh d) = d := by
  interval_cases d <;> decide

theorem isDigitCh_digitCh (d : Nat) : isDigitCh (digitCh d) = true := by
  unfold digitCh
  split <;> decide

theorem natSerL_ne_nil (n : Nat) : natSerL n ≠ [] := by
  rw [natSerL]
  split <;> simp

theorem natSerL_digits (n : Nat) : ∀ c ∈ natSerL n, isDigitCh c = true := by
  induction n using natSerL.induct with
  | case1 n h =>
    rw [natSerL, if_pos h]
    intro c hc
    simp at hc
    subst hc
    exact isDigitCh_digitCh n
  | case2 n h ih =>
    rw [natSerL, if_neg h]
    intro c hc
    rcases List.mem_append.mp hc with h1 | h2
    · exact ih c h1
    · simp at h2
      subst h2
      exact isDigitCh_digitCh (n % 10)

theorem digitsVal_append_digit (a : List Char) (c : Char) :
    digitsVal (a ++ [c]) = digitsVal a * 10 + digitVal c := by
  simp [digitsVal, List.foldl_append]

theorem digitsVal_natSerL (n : Nat) : digitsVal (natSerL n) = n := by
  induction n using natSerL.induct with
  | case1 n h =>
    rw [natSerL, if_pos h]
    simp [digitsVal, digitVal_digitCh n h]
  | case2 n h ih =>
    rw [natSerL, if_neg h]
    rw [digitsVal_append_digit, ih, digitVal_digitCh (n % 10) (Nat.mod_lt n (by omega))]
    omega

theorem natSerL_head (n : Nat) : ∃ d t, natSerL n = d :: t ∧ isDigitCh d = true := by
  induction n using natSerL.induct with
  | case1 n h =>
    exact ⟨digitCh n, [], by rw [natSerL, if_pos h], isDigitCh_digitCh n⟩
  | case2 n h ih =>
    obtain ⟨d, t, heq, hd⟩ := ih
    exact ⟨d, t ++ [digitCh (n % 10)], by rw [natSerL, if_neg h, heq]; simp, hd⟩

theorem takeDigits_spec (ds rest : List Char) (hds : ∀ c ∈ ds, isDigitCh c = true)
    (hr : headNotDigit rest = true) : takeDigits (ds ++ rest) = (ds, rest) := by
  induction ds with
  | nil =>
    cases rest with
    | nil => rfl
    | cons c t =>
      simp [headNotDigit] at hr
      simp [takeDigits, hr]
  | cons c t ih =>
    have hc : isDigitCh c = true := hds c (by simp)
    simp only [List.cons_append, takeDigits, hc, if_pos, List.append_eq]
    rw [ih (fun x hx => hds x (by simp [hx]))]

theorem strMk_toList (s : String) : String.mk s.toList = s := by
  cases s
  rfl

theorem parseNumL_natSer (neg : Bool) (n : Nat) (rest : List Char)
    (hr : headNotDigit rest = true) :
    parseNumL neg (natSerL n ++ rest) =
      some (.num (if neg then -(n : Int) else (n : Int)), rest) := by
  unfold parseNumL
  rw [takeDigits_spec _ _ (natSerL_digits n) hr]
  simp [natSerL_ne_nil n, digitsVal_natSerL n, List.isEmpty_iff]

theorem parseStrAux_quote (acc rest : List Char) :
    parseStrAux acc ('"' :: rest) = some (acc.reverse, rest) := by
  rw [parseStrAux.eq_def]
  rfl

theorem parseStrAux_unesc (acc X : List Char) (e d : Char) (h : unescCh e = some d) :
    parseStrAux acc ('\\' :: e :: X) = parseStrAux (d :: acc) X := by
  have h1 : ('\\' : Char) ≠ '"' := by decide
  rw [parseStrAux.eq_def]
  simp only []
  rw [if_neg h1]
  simp only [if_true]
  rw [h]

theorem parseStrAux_plain (acc rest : List Char) (c : Char) (h1 : c ≠ '"')
    (h2 : c ≠ '\\') : parseStrAux acc (c :: rest) = parseStrAux (c :: acc) rest := by
  rw [parseStrAux.eq_def]
  simp only []
  rw [if_neg h1, if_neg h2]

theorem parseStrAux_esc (l : List Char) :
    ∀ acc rest, parseStrAux acc (escList l ++ ('"' :: rest)) =
      some (acc.reverse ++ l, rest) := by
  induction l with
  | nil =>
    intro acc rest
    rw [show escList [] = [] from rfl, List.nil_append, parseStrAux_quote]
    simp
  | cons c t ih =>
    intro acc rest
    rw [show escList (c :: t) = escChar c ++ escList t from rfl, List.append_assoc]
    by_cases h1 : c = '"'
    · subst h1
      rw [show escChar '"' ++ (escList t ++ '"' :: rest) =
            '\\' :: '"' :: (escList t ++ '"' :: rest) from rfl]
      rw [parseStrAux_unesc _ _ _ _ (show unescCh '"' = some '"' from rfl)]
      rw [ih]
      simp
    · by_cases h2 : c = '\\'
      · subst h2
        rw [show escChar '\\' ++ (escList t ++ '"' :: rest) =
              '\\' :: '\\' :: (escList t ++ '"' :: rest) from rfl]
        rw [parseStrAux_unesc _ _ _ _ (show unescCh '\\' = some '\\' from rfl)]
        rw [ih]
        simp
      · by_cases h3 : c = '\n'
        · subst h3
          rw [show escChar '\n' ++ (escList t ++ '"' :: rest) =
                '\\' :: 'n' :: (escList t ++ '"' :: rest) from rfl]
          rw [parseStrAux_unesc _ _ _ _ (show unescCh 'n' = some '\n' from rfl)]
          rw [ih]
          simp
        · by_cases h4 : c = '\r'
          · subst h4
            rw [show escChar '\r' ++ (escList t ++ '"' :: rest) =
                  '\\' :: 'r' :: (escList t ++ '"' :: rest) from rfl]
            rw [parseStrAux_unesc _ _ _ _ (show unescCh 'r' = some '\r' from rfl)]
            rw [ih]
            simp
          · by_cases h5 : c = '\t'
            · subst h5
              rw [show escChar '\t' ++ (escList t ++ '"' :: rest) =
                    '\\' :: 't' :: (escList t ++ '"' :: rest) from rfl]
              rw [parseStrAux_unesc _ _ _ _ (show unescCh 't' = some '\t' from rfl)]
              rw [ih]
              simp
            · have hesc : escChar c = [c] := by
                unfold escChar
                rw [if_neg h1, if_neg h2, if_neg h3, if_neg h4, if_neg h5]
              rw [hesc, show ([c] : List Char) ++ (escList t ++ '"' :: rest) =
                    c :: (escList t ++ '"' :: rest) from rfl]
              rw [parseStrAux_plain _ _ _ h1 h2]
              rw [ih]
              simp

/-- Induction over `JValue` with membership hypotheses for the nested lists. -/
theorem jvalue_ind (P : JValue → Prop)
    (hnull : P .null) (hbool : ∀ b, P (.bool b)) (hnum : ∀ n, P (.num n))
    (hstr : ∀ s, P (.str s))
    (harr : ∀ xs, (∀ x ∈ xs, P x) → P (.arr xs))
    (hobj : ∀ fs, (∀ kv ∈ fs, P kv.2) → P (.obj fs)) :
    ∀ v, P v := by
  have H : ∀ n v, sizeOf v ≤ n → P v := by
    intro n
    induction n with
    | zero =>
      intro v hv
      cases v <;> simp at hv
    | succ n ih =>
      intro v hv
      cases v with
      | null => exact hnull
      | bool b => exact hbool b
      | num k => exact hnum k
      | str s => exact hstr s
      | arr xs =>
        refine harr xs (fun x hx => ih x ?_)
        have h1 := List.sizeOf_lt_of_mem hx
        have h2 : sizeOf (JValue.arr xs) = 1 + sizeOf xs := by simp
        omega
      | obj fs =>
        refine hobj fs (fun kv hkv => ih kv.2 ?_)
        have h1 := List.sizeOf_lt_of_mem hkv
        have h2 : sizeOf (JValue.obj fs) = 1 + sizeOf fs := by simp
        have h3 : sizeOf kv.2 < sizeOf kv := by
          obtain ⟨a, b⟩ := kv
          simp
        omega
  exact fun v => H (sizeOf v) v le_rfl

theorem isDigitCh_ne_special (c : Char) (h : isDigitCh c = true) :
    c ≠ ']' ∧ c ≠ '}' ∧ c ≠ ',' ∧ c ≠ ':' := by
  refine ⟨?_, ?_, ?_, ?_⟩ <;> intro hc <;> subst hc <;> exact absurd h (by decide)

/-- Every serialized value is nonempty and starts with a character that is
neither a closing bracket nor a separator. -/
theorem jSerL_head (v : JValue) :
    ∃ c t, jSerL v = c :: t ∧ c ≠ ']' ∧ c ≠ '}' ∧ c ≠ ',' := by
  cases v with
  | null => exact ⟨'n', _, rfl, by decide, by decide, by decide⟩
  | bool b =>
    cases b with
    | false => exact ⟨'f', _, rfl, by decide, by decide, by decide⟩
    | true => exact ⟨'t', _, rfl, by decide, by decide, by decide⟩
  | num n =>
    by_cases h : n < 0
    · exact ⟨'-', natSerL n.natAbs, by simp [jSerL, intSerL, h], by decide,
        by decide, by decide⟩
    · obtain ⟨d, t, heq, hd⟩ := natSerL_head n.toNat
      obtain ⟨h1, h2, h3, _⟩ := isDigitCh_ne_special d hd
      exact ⟨d, t, by simp [jSerL, intSerL, h, heq], h1, h2, h3⟩
  | str s => exact ⟨'"', _, rfl, by decide, by decide, by decide⟩
  | arr xs => exact ⟨'[', _, rfl, by decide, by decide, by decide⟩
  | obj fs => exact ⟨'{', _, rfl, by decide, by decide, by decide⟩

theorem parseVal_null (g : Nat) (rest : List Char) :
    parseVal (g + 1) ('n' :: 'u' :: 'l' :: 'l' :: rest) = some (.null, rest) := by
  simp +decide only [parseVal, if_true, if_false]

theorem parseVal_btrue (g : Nat) (rest : List Char) :
    parseVal (g + 1) ('t' :: 'r' :: 'u' :: 'e' :: rest) = some (.bool true, rest) := by
  simp +decide only [parseVal, if_true, if_false]

theorem parseVal_bfalse (g : Nat) (rest : List Char) :
    parseVal (g + 1) ('f' :: 'a' :: 'l' :: 's' :: 'e' :: rest) =
      some (.bool false, rest) := by
  simp +decide only [parseVal, if_true, if_false]

theorem parseVal_dash (g : Nat) (X : List Char) :
    parseVal (g + 1) ('-' :: X) = parseNumL true X := by
  simp +decide only [parseVal, if_true, if_false]

theorem parseVal_digit (g : Nat) (d : Char) (X : List Char) (hd : isDigitCh d = true) :
    parseVal (g + 1) (d :: X) = parseNumL false (d :: X) := by
  simp only [parseVal]
  rw [if_pos hd]

theorem parseVal_quote (g : Nat) (X : List Char) :
    parseVal (g + 1) ('"' :: X) =
      (match parseStrAux [] X with
       | some (s, r2) => some (.str (String.mk s), r2)
       | none => none) := by
  simp +decide only [parseVal, if_true, if_false]

theorem parseVal_arrNil (g : Nat) (rest : List Char) :
    parseVal (g + 1) ('[' :: ']' :: rest) = some (.arr [], rest) := by
  simp +decide only [parseVal, if_true, if_false]

theorem parseVal_arrCons (g : Nat) (c0 : Char) (Y : List Char) (hne : c0 ≠ ']') :
    parseVal (g + 1) ('[' :: c0 :: Y) =
      (match parseElems g (c0 :: Y) with
       | some (xs, r2) => some (.arr xs, r2)
       | none => none) := by
  simp +decide only [parseVal, if_true, if_false]
  split
  · rename_i r2 heq
    injection heq with h1 h2
    exact absurd h1 hne
  · rfl

theorem parseVal_objNil (g : Nat) (rest : List Char) :
    parseVal (g + 1) ('{' :: '}' :: rest) = some (.obj [], rest) := by
  simp +decide only [parseVal, if_true, if_false]

theorem parseVal_objQuote (g : Nat) (Y : List Char) :
    parseVal (g + 1) ('{' :: '"' :: Y) =
      (match parseFields g ('"' :: Y) with
       | some (fs, r2) => some (.obj fs, r2)
       | none => none) := by
  simp +decide only [parseVal, if_true, if_false]
  split
  · rename_i r2 heq
    injection heq with h1 h2
    exact absurd h1 (by decide)
  · rfl

theorem jWeight_pos (v : JValue) : 1 ≤ jWeight v := by
  cases v with
  | null => simp [jWeight]
  | bool b => simp [jWeight]
  | num n => simp [jWeight]
  | str s => simp [jWeight]
  | arr xs =>
    cases xs with
    | nil => simp [jWeight]
    | cons x t =>
      simp only [jWeight]
      omega
  | obj fs =>
    cases fs with
    | nil => simp [jWeight]
    | cons f t =>
      simp only [jWeight]
      omega

theorem jWeightElems_le_len (l : List JValue)
    (h : ∀ x ∈ l, jWeight x ≤ (jSerL x).length) :
    jWeightElems l ≤ (jSerArr l).length + 1 := by
  induction l with
  | nil => simp [jWeightElems, jSerArr]
  | cons x t ih =>
    cases t with
    | nil =>
      have h1 := h x (by simp)
      simp only [jWeightElems, jSerArr]
      omega
    | cons y ys =>
      have h1 := h x (by simp)
      have h2 := ih (fun z hz => h z (by simp [hz]))
      rw [show jWeightElems (x :: y :: ys) =
            1 + jWeight x + jWeightElems (y :: ys) from by rw [jWeightElems]]
      rw [show jSerArr (x :: y :: ys) =
            jSerL x ++ ',' :: jSerArr (y :: ys) from by rw [jSerArr]]
      simp only [List.length_append, List.length_cons]
      omega

theorem jWeightFields_le_len (l : List (String × JValue))
    (h : ∀ kv ∈ l, jWeight kv.2 ≤ (jSerL kv.2).length) :
    jWeightFields l ≤ (jSerObj l).length + 1 := by
  induction l with
  | nil => simp [jWeightFields, jSerObj]
  | cons f t ih =>
    obtain ⟨k, v⟩ := f
    cases t with
    | nil =>
      have h1 := h (k, v) (by simp)
      simp only [jWeightFields, jSerObj, List.length_cons, List.length_append]
      simp at h1
      omega
    | cons f2 t2 =>
      have h1 := h (k, v) (by simp)
      have h2 := ih (fun z hz => h z (by simp [hz]))
      rw [show jWeightFields ((k, v) :: f2 :: t2) =
            1 + jWeight v + jWeightFields (f2 :: t2) from by rw [jWeightFields]]
      rw [show jSerObj ((k, v) :: f2 :: t2) =
            ('"' :: (escList k.toList ++ '"' :: ':' :: jSerL v)) ++
              ',' :: jSerObj (f2 :: t2) from by rw [jSerObj]]
      simp only [List.length_append, List.length_cons]
      simp at h1
      omega

theorem jWeight_le_len (v : JValue) : jWeight v ≤ (jSerL v).length := by
  induction v using jvalue_ind with
  | hnull => simp [jWeight, jSerL]
  | hbool b => cases b <;> simp [jWeight, jSerL]
  | hnum n =>
    have hpos : 1 ≤ (intSerL n).length := by
      unfold intSerL
      split
      · simp
      · have := natSerL_ne_nil n.toNat
        cases hh : natSerL n.toNat with
        | nil => exact absurd hh this
        | cons a b => simp [hh]
    simp only [jWeight, jSerL]
    omega
  | hstr s => simp [jWeight, jSerL]
  | harr xs h =>
    cases xs with
    | nil => simp [jWeight, jSerL, jSerArr]
    | cons x t =>
      have h1 := jWeightElems_le_len (x :: t) h
      rw [show jWeight (.arr (x :: t)) = 1 + jWeightElems (x :: t) from by rw [jWeight]]
      rw [show jSerL (.arr (x :: t)) = '[' :: (jSerArr (x :: t) ++ [']']) from by
        rw [jSerL]]
      simp only [List.length_cons, List.length_append]
      omega
  | hobj fs h =>
    cases fs with
    | nil => simp [jWeight, jSerL, jSerObj]
    | cons f t =>
      have h1 := jWeightFields_le_len (f :: t) h
      rw [show jWeight (.obj (f :: t)) = 1 + jWeightFields (f :: t) from by rw [jWeight]]
      rw [show jSerL (.obj (f :: t)) = '{' :: (jSerObj (f :: t) ++ ['}']) from by
        rw [jSerL]]
      simp only [List.length_cons, List.length_append]
      omega

theorem parse_roundtrip (fuel : Nat) :
    (∀ v rest, jWeight v ≤ fuel → headNotDigit rest = true →
       parseVal fuel (jSerL v ++ rest) = some (v, rest)) ∧
    (∀ xs rest, xs ≠ [] → jWeightElems xs ≤ fuel →
       parseElems fuel (jSerArr xs ++ (']' :: rest)) = some (xs, rest)) ∧
    (∀ fs rest, fs ≠ [] → jWeightFields fs ≤ fuel →
       parseFields fuel (jSerObj fs ++ ('}' :: rest)) = some (fs, rest)) := by
  induction fuel using Nat.strong_induction_on with
  | _ fuel ih =>
    cases fuel with
    | zero =>
      refine ⟨?_, ?_, ?_⟩
      · intro v rest hw _
        exact absurd hw (by have := jWeight_pos v; omega)
      · intro xs rest hne hw
        cases xs with
        | nil => exact absurd rfl hne
        | cons x t =>
          exfalso
          simp only [jWeightElems] at hw
          omega
      · intro fs rest hne hw
        cases fs with
        | nil => exact absurd rfl hne
        | cons f t =>
          exfalso
          simp only [jWeightFields] at hw
          omega
    | succ g =>
      obtain ⟨ihv, ihe, ihf⟩ := ih g (Nat.lt_succ_self g)
      refine ⟨?_, ?_, ?_⟩
      · intro v rest hw hr
        cases v with
        | null =>
          rw [show jSerL .null ++ rest = 'n' :: 'u' :: 'l' :: 'l' :: rest from by
            rw [jSerL]; rfl]
          exact parseVal_null g rest
        | bool b =>
          cases b with
          | true =>
            rw [show jSerL (.bool true) ++ rest = 't' :: 'r' :: 'u' :: 'e' :: rest from by
              rw [jSerL]; rfl]
            exact parseVal_btrue g rest
          | false =>
            rw [show jSerL (.bool false) ++ rest =
                  'f' :: 'a' :: 'l' :: 's' :: 'e' :: rest from by rw [jSerL]; rfl]
            exact parseVal_bfalse g rest
        | num n =>
          rw [show jSerL (.num n) = intSerL n from by rw [jSerL]]
          by_cases hneg : n < 0
          · rw [show intSerL n = '-' :: natSerL n.natAbs from by
              unfold intSerL; rw [if_pos hneg]]
            rw [List.cons_append, parseVal_dash, parseNumL_natSer true n.natAbs rest hr]
            simp [abs_of_neg hneg]
          · obtain ⟨d, t, heq, hd⟩ := natSerL_head n.toNat
            rw [show intSerL n = natSerL n.toNat from by
              unfold intSerL; rw [if_neg hneg]]
            rw [heq, List.cons_append, parseVal_digit g d _ hd, ← List.cons_append,
              ← heq, parseNumL_natSer false n.toNat rest hr]
            have hval : ((n.toNat : Nat) : Int) = n := by omega
            simp [hval]
        | str s =>
          rw [show jSerL (.str s) ++ rest =
                '"' :: (escList s.toList ++ ('"' :: rest)) from by rw [jSerL]; simp]
          rw [parseVal_quote, parseStrAux_esc]
          simp [strMk_toList]
        | arr xs =>
          cases xs with
          | nil =>
            rw [show jSerL (.arr []) ++ rest = '[' :: ']' :: rest from by
              rw [jSerL]; rw [jSerArr]; simp]
            exact parseVal_arrNil g rest
          | cons x t =>
            obtain ⟨c0, t0, hx, hne1, _, _⟩ := jSerL_head x
            obtain ⟨tl, htl⟩ : ∃ tl, jSerArr (x :: t) = jSerL x ++ tl := by
              cases t with
              | nil => exact ⟨[], by rw [jSerArr]; simp⟩
              | cons y ys => exact ⟨',' :: jSerArr (y :: ys), by rw [jSerArr]⟩
            have hcs : jSerL (.arr (x :: t)) ++ rest =
                '[' :: (jSerArr (x :: t) ++ (']' :: rest)) := by
              rw [jSerL]; simp
            rw [hcs]
            have hform : jSerArr (x :: t) ++ (']' :: rest) =
                c0 :: (t0 ++ tl ++ (']' :: rest)) := by
              rw [htl, hx]; simp
            rw [hform, parseVal_arrCons g c0 _ hne1, ← hform]
            rw [ihe (x :: t) rest (by simp)
              (by rw [show jWeight (.arr (x :: t)) = 1 + jWeightElems (x :: t) from by
                      rw [jWeight]] at hw
                  omega)]
        | obj fs =>
          cases fs with
          | nil =>
            rw [show jSerL (.obj []) ++ rest = '{' :: '}' :: rest from by
              rw [jSerL]; rw [jSerObj]; simp]
            exact parseVal_objNil g rest
          | cons f t =>
            obtain ⟨k, v0⟩ := f
            obtain ⟨Z, hZ⟩ : ∃ Z, jSerObj ((k, v0) :: t) = '"' :: Z := by
              cases t with
              | nil => exact ⟨_, by rw [jSerObj]⟩
              | cons f2 t2 =>
                exact ⟨(escList k.toList ++ '"' :: ':' :: jSerL v0) ++
                  ',' :: jSerObj (f2 :: t2), by rw [jSerObj]; simp⟩
            have hcs : jSerL (.obj ((k, v0) :: t)) ++ rest =
                '{' :: '"' :: (Z ++ ('}' :: rest)) := by
              rw [jSerL]; rw [hZ]; simp
            rw [hcs]
            rw [parseVal_objQuote]
            rw [show ('"' : Char) :: (Z ++ ('}' :: rest)) =
                  jSerObj ((k, v0) :: t) ++ ('}' :: rest) from by rw [hZ]; simp]
            rw [ihf ((k, v0) :: t) rest (by simp)
              (by rw [show jWeight (.obj ((k, v0) :: t)) =
                        1 + jWeightFields ((k, v0) :: t) from by rw [jWeight]] at hw
                  omega)]
      · intro xs rest hne hw
        cases xs with
        | nil => exact absurd rfl hne
        | cons x t =>
          simp only [parseElems]
          rw [show jWeightElems (x :: t) = 1 + jWeight x + jWeightElems t from by
            rw [jWeightElems]] at hw
          cases t with
          | nil =>
            rw [show jSerArr [x] ++ (']' :: rest) = jSerL x ++ (']' :: rest) from by
              rw [jSerArr]]
            rw [ihv x (']' :: rest) (by simp only [jWeightElems] at hw; omega) rfl]
            rfl
          | cons y ys =>
            rw [show jSerArr (x :: y :: ys) ++ (']' :: rest) =
                  jSerL x ++ (',' :: (jSerArr (y :: ys) ++ (']' :: rest))) from by
              rw [jSerArr]; simp]
            rw [ihv x (',' :: (jSerArr (y :: ys) ++ (']' :: rest))) (by omega) rfl]
            simp only []
            rw [ihe (y :: ys) rest (by simp) (by omega)]
      · intro fs rest hne hw
        cases fs with
        | nil => exact absurd rfl hne
        | cons f t =>
          obtain ⟨k, v0⟩ := f
          simp only [parseFields]
          rw [show jWeightFields ((k, v0) :: t) =
                1 + jWeight v0 + jWeightFields t from by rw [jWeightFields]] at hw
          cases t with
          | nil =>
            rw [show jSerObj [(k, v0)] ++ ('}' :: rest) =
                  '"' :: (escList k.toList ++
                    ('"' :: (':' :: (jSerL v0 ++ ('}' :: rest))))) from by
              rw [jSerObj]; simp]
            simp only []
            rw [parseStrAux_esc k.toList [] _]
            simp only [List.reverse_nil, List.nil_append]
            rw [ihv v0 ('}' :: rest) (by simp only [jWeightFields] at hw; omega) rfl]
            simp [strMk_toList]
          | cons f2 t2 =>
            rw [show jSerObj ((k, v0) :: f2 :: t2) ++ ('}' :: rest) =
                  '"' :: (escList k.toList ++
                    ('"' :: (':' :: (jSerL v0 ++
                      (',' :: (jSerObj (f2 :: t2) ++ ('}' :: rest))))))) from by
              rw [jSerObj]; simp]
            simp only []
            rw [parseStrAux_esc k.toList [] _]
            simp only [List.reverse_nil, List.nil_append]
            rw [ihv v0 (',' :: (jSerObj (f2 :: t2) ++ ('}' :: rest))) (by omega) rfl]
            simp only []
            rw [ihf (f2 :: t2) rest (by simp) (by omega)]
            simp [strMk_toList]

theorem jParseL_ser (v : JValue) : jParseL (jSerL v) = some v := by
  unfold jParseL
  have h := (parse_roundtrip ((jSerL v).length + 1)).1 v []
    (le_trans (jWeight_le_len v) (by omega)) rfl
  rw [List.append_nil] at h
  rw [h]

theorem jParse_stringify (v : JValue) : jParse (jStringify v) = some v := by
  unfold jParse jStringify
  exact jParseL_ser v

/-- C9: round-trip of chat persistence. For every array of chat objects,
`loadChats` after `saveChats chats` returns an array structurally equal to
`chats`; and `loadChats` never throws: when storage is empty (missing key or
empty string) or its content is not valid JSON, it returns the empty list. -/
theorem C9_loadChats_roundtrip :
    (∀ (chats : List JValue) (st : Option String),
        loadChats (saveChats chats st) = .arr chats) ∧
    loadChats none = .arr [] ∧
    loadChats (some "") = .arr [] ∧
    (∀ s : String, jParse s = none → loadChats (some s) = .arr []) := by
  refine ⟨?_, rfl, rfl, ?_⟩
  · intro chats st
    unfold saveChats loadChats
    simp only []
    have hcons : jSerL (.arr chats) = '[' :: (jSerArr chats ++ [']']) := by rw [jSerL]
    have hne : jStringify (.arr chats) ≠ "" := by
      intro h
      have h2 := congrArg String.data h
      rw [show (jStringify (.arr chats)).data = jSerL (.arr chats) from rfl] at h2
      rw [hcons] at h2
      simp at h2
    rw [if_neg hne, jParse_stringify]
  · intro s hs
    unfold loadChats
    simp only []
    by_cases he : s = ""
    · rw [if_pos he]
    · rw [if_neg he, hs]

/-- Witness for C9 at a concrete chat list and a concrete invalid storage
content. -/
theorem C9_loadChats_roundtrip_witness :
    loadChats (saveChats [JValue.obj [("id", .str "chat_1"), ("title", .str "New Chat"),
        ("messages", .arr []), ("messageCount", .num 0)]] none) =
      .arr [JValue.obj [("id", .str "chat_1"), ("title", .str "New Chat"),
        ("messages", .arr []), ("messageCount", .num 0)]] ∧
    loadChats (some "not json") = .arr [] := by
  constructor
  · exact C9_loadChats_roundtrip.1 [JValue.obj [("id", .str "chat_1"),
      ("title", .str "New Chat"), ("messages", .arr []), ("messageCount", .num 0)]] none
  · exact C9_loadChats_roundtrip.2.2.2 "not json" rfl

theorem splitNlL_ne_nil (cs : List Char) : splitNlL cs ≠ [] := by
  cases cs with
  | nil => simp [splitNlL]
  | cons c rest =>
    simp only [splitNlL]
    split
    · simp
    · split <;> simp

theorem strMk_eq_done (e : List Char) (h : String.mk e = "done") : e = doneL := by
  have h2 := congrArg String.data h
  exact h2

theorem procLines_doneOk (ls : List (List Char)) : ∀ st, DoneOk (procLines st ls) := by
  induction ls with
  | nil =>
    intro st
    constructor
    · intro _ e he
      simp [procLines] at he
    · intro h
      simp [procLines] at h
  | cons line rest ih =>
    intro st
    obtain ⟨ev, dat⟩ := st
    cases ev with
    | none =>
      simp only [procLines]
      split_ifs with h1 h2 h3
      · exact ih _
      · exact ih _
      · exact ih _
      · exact ih _
    | some e =>
      simp only [procLines]
      split_ifs with h1 h2 h3 h2' h3' h4' h5'
      · -- event line, pending dispatch, done
        constructor
        · intro hf
          simp at hf
        · intro _
          refine ⟨[], jsonOrStr dat, ?_, by simp⟩
          rw [h3]
          rfl
      · -- event line, pending dispatch, not done
        have hd : String.mk e ≠ "done" := fun hc => h3 (strMk_eq_done e hc)
        obtain ⟨hf, ht⟩ := ih ⟨some (trimL (line.drop 7)), []⟩
        constructor
        · intro h0 x hx
          rcases List.mem_cons.mp hx with rfl | hx2
          · exact hd
          · exact hf h0 x hx2
        · intro h1'
          obtain ⟨pre, q, hsplit, hpre⟩ := ht h1'
          refine ⟨(String.mk e, jsonOrStr dat) :: pre, q, by rw [hsplit]; rfl, ?_⟩
          intro x hx
          rcases List.mem_cons.mp hx with rfl | hx2
          · exact hd
          · exact hpre x hx2
      · -- event line, no dispatch
        exact ih _
      · -- data line
        exact ih _
      · -- blank line, pending dispatch, done
        constructor
        · intro hf
          simp at hf
        · intro _
          refine ⟨[], jsonOrStr dat, ?_, by simp⟩
          rw [h5']
          rfl
      · -- blank line, pending dispatch, not done
        have hd : String.mk e ≠ "done" := fun hc => h5' (strMk_eq_done e hc)
        obtain ⟨hf, ht⟩ := ih ⟨none, []⟩
        constructor
        · intro h0 x hx
          rcases List.mem_cons.mp hx with rfl | hx2
          · exact hd
          · exact hf h0 x hx2
        · intro h1'
          obtain ⟨pre, q, hsplit, hpre⟩ := ht h1'
          refine ⟨(String.mk e, jsonOrStr dat) :: pre, q, by rw [hsplit]; rfl, ?_⟩
          intro x hx
          rcases List.mem_cons.mp hx with rfl | hx2
          · exact hd
          · exact hpre x hx2
      · -- blank line, no dispatch
        exact ih _
      · -- other line
        exact ih _

theorem procChunks_doneOk (cs : List (List Char)) : ∀ buf, DoneOk (procChunks buf cs) := by
  induction cs with
  | nil =>
    intro buf
    constructor
    · intro _ e he
      simp [procChunks] at he
    · intro h
      simp [procChunks] at h
  | cons c rest ih =>
    intro buf
    simp only [procChunks]
    obtain ⟨hf, ht⟩ := procLines_doneOk
      ((splitNlL (buf ++ c)).dropLast) ⟨none, []⟩
    split_ifs with h1
    · constructor
      · intro h0
        simp at h0
      · intro _
        exact ht h1
    · obtain ⟨hf2, ht2⟩ := ih ((splitNlL (buf ++ c)).getLast?.getD [])
      constructor
      · intro h0 e he
        rcases List.mem_append.mp he with h | h
        · exact hf (by simpa using h1) e h
        · exact hf2 h0 e h
      · intro h0
        obtain ⟨pre, q, hsplit, hpre⟩ := ht2 h0
        refine ⟨(procLines ⟨none, []⟩ ((splitNlL (buf ++ c)).dropLast)).1 ++ pre, q,
          by rw [hsplit]; simp, ?_⟩
        intro e he
        rcases List.mem_append.mp he with h | h
        · exact hf (by simpa using h1) e h
        · exact hpre e h

/-- The event name `done` can only occur as the very last event dispatched
by `streamQuery`, whatever the transport does. -/
theorem streamQuery_done_terminal (fb : FetchBehavior) :
    ∀ e ∈ (streamQuery fb).1.dropLast, e.1 ≠ "done" := by
  cases fb with
  | httpError status =>
    intro e he
    simp [streamQuery] at he
  | stream chunks =>
    intro e he
    obtain ⟨hf, ht⟩ := procChunks_doneOk chunks []
    simp only [streamQuery] at he
    cases hflag : (procChunks [] chunks).2 with
    | false =>
      exact hf hflag e (List.mem_of_mem_dropLast he)
    | true =>
      obtain ⟨pre, q, hsplit, hpre⟩ := ht hflag
      rw [hsplit] at he
      rw [List.dropLast_concat] at he
      exact hpre e he
  | streamAbort chunks msg =>
    intro e he
    obtain ⟨hf, ht⟩ := procChunks_doneOk chunks []
    simp only [streamQuery] at he
    by_cases hflag : (procChunks [] chunks).2 = true
    · rw [if_pos hflag] at he
      obtain ⟨pre, q, hsplit, hpre⟩ := ht hflag
      rw [hsplit] at he
      simp only [List.dropLast_concat] at he
      exact hpre e he
    · rw [if_neg hflag] at he
      simp only [List.dropLast_concat] at he
      exact hf (by simpa using hflag) e he

theorem splitNlL_nonl_append (xs : List Char) (h : '\n' ∉ xs) :
    ∀ cs, ∃ l ls, splitNlL cs = l :: ls ∧ splitNlL (xs ++ cs) = (xs ++ l) :: ls := by
  induction xs with
  | nil =>
    intro cs
    cases hsp : splitNlL cs with
    | nil => exact absurd hsp (splitNlL_ne_nil cs)
    | cons l ls => exact ⟨l, ls, rfl, by simp [hsp]⟩
  | cons x t ih =>
    intro cs
    have hx : x ≠ '\n' := fun hc => h (by simp [hc])
    obtain ⟨l, ls, h1, h2⟩ := ih (fun hm => h (by simp [hm])) cs
    refine ⟨l, ls, h1, ?_⟩
    simp only [List.cons_append, splitNlL, List.append_eq]
    rw [h2]
    simp only []
    rw [if_neg hx]

theorem splitNlL_cons_nl (cs : List Char) :
    splitNlL ('\n' :: cs) = [] :: splitNlL cs := by
  simp only [splitNlL]
  cases hsp : splitNlL cs with
  | nil => exact absurd hsp (splitNlL_ne_nil cs)
  | cons l ls => simp

theorem splitNlL_renderStream (es : List (List Char × List Char))
    (h : ∀ p ∈ es, '\n' ∉ p.1 ∧ '\n' ∉ p.2) :
    splitNlL (renderStreamL es) = linesOf es ++ [[]] := by
  induction es with
  | nil => rfl
  | cons e t ih =>
    obtain ⟨n, d⟩ := e
    obtain ⟨hn, hd⟩ := h (n, d) (by simp)
    have hihl := ih (fun p hp => h p (by simp [hp]))
    have hBig : renderStreamL ((n, d) :: t) =
        (evHdr ++ n) ++ ('\n' :: ((datHdr ++ d) ++ ('\n' :: ('\n' ::
          renderStreamL t)))) := by
      show renderEventL n d ++ renderStreamL t = _
      unfold renderEventL
      simp
    rw [hBig]
    have hnl1 : '\n' ∉ evHdr ++ n := by
      intro hm
      rcases List.mem_append.mp hm with hh | hh
      · simp [evHdr] at hh
      · exact hn hh
    have hnl2 : '\n' ∉ datHdr ++ d := by
      intro hm
      rcases List.mem_append.mp hm with hh | hh
      · simp [datHdr] at hh
      · exact hd hh
    obtain ⟨l1, ls1, he1, he2⟩ := splitNlL_nonl_append (evHdr ++ n) hnl1
      ('\n' :: ((datHdr ++ d) ++ ('\n' :: ('\n' :: renderStreamL t))))
    rw [splitNlL_cons_nl] at he1
    obtain ⟨l2, ls2, hf1, hf2⟩ := splitNlL_nonl_append (datHdr ++ d) hnl2
      ('\n' :: ('\n' :: renderStreamL t))
    rw [splitNlL_cons_nl, splitNlL_cons_nl, hihl] at hf1
    rw [hf2] at he1
    injection he1 with ha hb
    injection hf1 with hc hd2
    subst ha
    subst hb
    subst hc
    subst hd2
    rw [he2]
    simp [linesOf]

theorem startsWithL_self_append (p x : List Char) : startsWithL p (p ++ x) = true := by
  induction p with
  | nil => rfl
  | cons c t ih => simp [startsWithL, ih]

theorem startsWithL_ev_dat (d : List Char) : startsWithL evHdr (datHdr ++ d) = false := rfl

theorem startsWithL_ev_nil : startsWithL evHdr [] = false := rfl

theorem startsWithL_dat_nil : startsWithL datHdr [] = false := rfl

theorem drop7_evHdr (n : List Char) : List.drop 7 (evHdr ++ n) = n := rfl

theorem drop6_datHdr (d : List Char) : List.drop 6 (datHdr ++ d) = d := rfl

theorem procLines_render (es : List (List Char × List Char))
    (h : ∀ p ∈ es, p.1 ≠ [] ∧ trimL p.1 = p.1 ∧ p.1 ≠ doneL ∧ p.2 ≠ []) :
    procLines ⟨none, []⟩ (linesOf es) =
      (es.map (fun p => (String.mk p.1, jsonOrStr p.2)), false) := by
  induction es with
  | nil => rfl
  | cons e t ih =>
    obtain ⟨n, d⟩ := e
    obtain ⟨hn, htr, hnd, hd⟩ := h (n, d) (by simp)
    have hih := ih (fun p hp => h p (by simp [hp]))
    show procLines ⟨none, []⟩ ((evHdr ++ n) :: (datHdr ++ d) :: [] :: linesOf t) = _
    rw [show procLines ⟨none, []⟩ ((evHdr ++ n) :: (datHdr ++ d) :: [] :: linesOf t) =
          procLines ⟨some n, []⟩ ((datHdr ++ d) :: [] :: linesOf t) from by
      simp only [procLines, startsWithL_self_append, if_true, drop7_evHdr, htr]]
    rw [show procLines ⟨some n, []⟩ ((datHdr ++ d) :: [] :: linesOf t) =
          procLines ⟨some n, d⟩ ([] :: linesOf t) from by
      simp only [procLines, startsWithL_ev_dat, startsWithL_self_append, if_true,
        Bool.false_eq_true, if_false, drop6_datHdr, List.nil_append]]
    simp only [procLines, startsWithL_ev_nil, startsWithL_dat_nil,
      Bool.false_eq_true, if_false, if_true]
    rw [if_pos ⟨hn, hd⟩, if_neg hnd, hih]
    rfl

theorem deny_not_allow (kw : String) (h : kw ∈ denyKws) : kw ∉ allowKws := by
  intro ha
  simp only [denyKws, List.mem_cons, List.mem_singleton] at h
  rcases h with rfl | rfl | rfl | rfl | rfl | rfl | rfl | rfl | rfl | rfl | h2
  · exact absurd ha (by decide)
  · exact absurd ha (by decide)
  · exact absurd ha (by decide)
  · exact absurd ha (by decide)
  · exact absurd ha (by decide)
  · exact absurd ha (by decide)
  · exact absurd ha (by decide)
  · exact absurd ha (by decide)
  · exact absurd ha (by decide)
  · exact absurd ha (by decide)
  · simp at h2
    subst h2
    exact absurd ha (by decide)

theorem runEngine_done_once (check : String → Verdict) (attempts : List AttemptData) :
    ∀ retries,
      ((runEngine check retries attempts).events.filter isDoneEv).length = 1 := by
  induction attempts with
  | nil =>
    intro retries
    simp [runEngine, isDoneEv]
  | cons a rest ih =>
    intro retries
    obtain ⟨comp, exec, sugg⟩ := a
    cases comp with
    | fatal m => simp [runEngine, isDoneEv]
    | ok reasoning sqlOpt =>
      cases sqlOpt with
      | none =>
        cases retries with
        | zero => simp [runEngine, isDoneEv]
        | succ r => simp [runEngine, isDoneEv, ih r]
      | some q =>
        cases hc : check q with
        | rejected reason =>
          cases retries with
          | zero => simp [runEngine, hc, isDoneEv]
          | succ r => simp [runEngine, hc, isDoneEv, ih r]
        | allowed =>
          cases exec with
          | success cols rows => cases sugg <;> simp [runEngine, hc, isDoneEv]
          | failure retryable m =>
            cases retryable with
            | true =>
              cases retries with
              | zero => simp [runEngine, hc, isDoneEv]
              | succ r => simp [runEngine, hc, isDoneEv, ih r]
            | false => simp [runEngine, hc, isDoneEv]

theorem runEngine_executed_allowed (check : String → Verdict)
    (attempts : List AttemptData) :
    ∀ retries q, q ∈ (runEngine check retries attempts).executed →
      check q = .allowed := by
  induction attempts with
  | nil =>
    intro retries q hq
    simp [runEngine] at hq
  | cons a rest ih =>
    intro retries q
    obtain ⟨comp, exec, sugg⟩ := a
    cases comp with
    | fatal m =>
      intro hq
      simp [runEngine] at hq
    | ok reasoning sqlOpt =>
      cases sqlOpt with
      | none =>
        cases retries with
        | zero =>
          intro hq
          simp [runEngine] at hq
        | succ r =>
          intro hq
          simp only [runEngine] at hq
          exact ih r q hq
      | some q2 =>
        cases hc : check q2 with
        | rejected reason =>
          cases retries with
          | zero =>
            intro hq
            simp [runEngine, hc] at hq
          | succ r =>
            intro hq
            simp only [runEngine, hc] at hq
            exact ih r q hq
        | allowed =>
          cases exec with
          | success cols rows =>
            intro hq
            simp only [runEngine, hc] at hq
            simp at hq
            subst hq
            exact hc
          | failure retryable m =>
            cases retryable with
            | true =>
              cases retries with
              | zero =>
                intro hq
                simp only [runEngine, hc] at hq
                simp at hq
                subst hq
                exact hc
              | succ r =>
                intro hq
                simp only [runEngine, hc] at hq
                rcases List.mem_cons.mp hq with rfl | hq2
                · exact hc
                · exact ih r q hq2
            | false =>
              intro hq
              simp only [runEngine, hc] at hq
              simp at hq
              subst hq
              exact hc

/-- C1: for every SQL string whose first statement keyword is a write/DDL
keyword (INSERT, UPDATE, DELETE, DROP, ALTER, CREATE, TRUNCATE, REPLACE,
GRANT, ATTACH, PRAGMA), `SqlGuard.check` returns Rejected; and no SQL
reaches a database connection without first passing the guard: every SQL
string the engine hands to the executor was checked Allowed beforehand. -/
theorem C1_sqlguard_rejects_writes :
    (∀ (schema : List String) (s kw : String),
        firstKeyword s = some kw → kw ∈ denyKws →
        (SqlGuard.check schema s).isRejected = true) ∧
    (∀ (schema : List String) (retries : Nat) (attempts : List AttemptData)
        (q : String),
        q ∈ (runEngine (SqlGuard.check schema) retries attempts).executed →
        SqlGuard.check schema q = .allowed) := by
  constructor
  · intro schema s kw hfk hdeny
    unfold SqlGuard.check
    rw [hfk]
    simp only []
    split_ifs with h1 h2 h3 h4
    · rfl
    · rfl
    · rfl
    · exact absurd h2 (deny_not_allow kw hdeny)
    · rfl
  · intro schema retries attempts q hq
    exact runEngine_executed_allowed (SqlGuard.check schema) attempts retries q hq

/-- Witness for C1: `DROP TABLE artists` is rejected (its first keyword is
on the denylist), and the one SQL string a concrete run executes was
guard-approved. -/
theorem C1_sqlguard_rejects_writes_witness :
    (SqlGuard.check [] "DROP TABLE artists").isRejected = true ∧
    SqlGuard.check ["artists"] "SELECT name FROM artists" = .allowed := by
  constructor
  · exact C1_sqlguard_rejects_writes.1 [] "DROP TABLE artists" "DROP" rfl (by decide)
  · exact C1_sqlguard_rejects_writes.2 ["artists"] 2
      [⟨.ok "join-free lookup" (some "SELECT name FROM artists"),
        .success ["name"] [["AC/DC"]], none⟩]
      "SELECT name FROM artists"
      (by rw [show (runEngine (SqlGuard.check ["artists"]) 2
            [⟨.ok "join-free lookup" (some "SELECT name FROM artists"),
              .success ["name"] [["AC/DC"]], none⟩]).executed =
            ["SELECT name FROM artists"] from rfl]
          exact List.mem_singleton.mpr rfl)

/-- C2: the engine emits `done` exactly once per run, whether the run
succeeds or fails; and `done` is terminal on the client: once streamQuery
dispatches a `done` event to onEvent it returns at once, so `done` can only
be the last dispatched event, whatever the transport does. -/
theorem C2_done_exactly_once_and_terminal :
    (∀ (check : String → Verdict) (retries : Nat) (attempts : List AttemptData),
        ((runEngine check retries attempts).events.filter isDoneEv).length = 1) ∧
    (∀ fb : FetchBehavior, ∀ e ∈ (streamQuery fb).1.dropLast, e.1 ≠ "done") :=
  ⟨fun check retries attempts => runEngine_done_once check attempts retries,
   streamQuery_done_terminal⟩

/-- Witness for C2: a concrete successful run has exactly one `done`, and
in a concrete stream carrying `sql` then `done`, the non-final dispatched
event is not `done`. -/
theorem C2_done_exactly_once_and_terminal_witness :
    ((runEngine (fun _ => Verdict.allowed) 2
        [⟨.ok "pick all rows" (some "SELECT 1"), .success ["x"] [["1"]],
          some ["next?"]⟩]).events.filter isDoneEv).length = 1 ∧
    (("sql", JValue.num 1) : String × JValue).1 ≠ "done" := by
  constructor
  · exact C2_done_exactly_once_and_terminal.1 (fun _ => .allowed) 2
      [⟨.ok "pick all rows" (some "SELECT 1"), .success ["x"] [["1"]],
        some ["next?"]⟩]
  · exact C2_done_exactly_once_and_terminal.2
      (.stream ["event: sql\ndata: 1\n\nevent: done\ndata: 1\n\n".toList])
      ("sql", JValue.num 1)
      (by rw [show (streamQuery (.stream
            ["event: sql\ndata: 1\n\nevent: done\ndata: 1\n\n".toList])).1.dropLast =
            [("sql", JValue.num 1)] from rfl]
          exact List.mem_singleton.mpr rfl)

/-- C3 counterexample: when the stream read throws, the client dispatches
an `error` event and the promise rejects, but no `done` event is ever
dispatched — so "the client observes a terminal error event followed by a
done event" fails on the transport-error path of streamQuery. -/
theorem C3_counterexample :
    streamQuery (.streamAbort [] "network error") =
      ([("error", JValue.str "network error")], .rejected "network error") ∧
    ∀ p, ("done", p) ∉ (streamQuery (.streamAbort [] "network error")).1 := by
  constructor
  · rfl
  · intro p hp
    rw [show (streamQuery (.streamAbort [] "network error")).1 =
        [("error", JValue.str "network error")] from rfl] at hp
    have h := List.mem_singleton.mp hp
    have h1 : ("done" : String) = "error" := congrArg Prod.fst h
    exact absurd h1 (by decide)

/-- C3 amended: every failing transport interaction dispatches a terminal
`error` event with a readable message to onEvent before the promise
rejects: an HTTP error dispatches exactly one error event and rejects, and
a read that throws after some chunks dispatches the events parsed so far
followed by the error event and then rejects (no `done` on this path; the
caller's catch block finalizes the message). -/
theorem C3_error_dispatch_before_reject :
    (∀ status : Nat,
        streamQuery (.httpError status) =
          ([("error", .str ("HTTP error! status: " ++ toString status))],
            .rejected ("HTTP error! status: " ++ toString status))) ∧
    (∀ (chunks : List (List Char)) (msg : String) (evs : List (String × JValue)),
        procChunks [] chunks = (evs, false) →
        streamQuery (.streamAbort chunks msg) =
          (evs ++ [("error", .str msg)], .rejected msg)) := by
  constructor
  · intro status
    rfl
  · intro chunks msg evs h
    simp only [streamQuery]
    rw [h]
    rfl

/-- Witness for C3 (amended): a stream that delivers one status event and
then dies dispatches the status event, then the error event, and rejects. -/
theorem C3_error_dispatch_before_reject_witness :
    streamQuery (.streamAbort ["event: status\ndata: hi\n\n".toList] "network error") =
      ([("status", JValue.str "hi"), ("error", JValue.str "network error")],
        .rejected "network error") :=
  C3_error_dispatch_before_reject.2 ["event: status\ndata: hi\n\n".toList]
    "network error" [("status", JValue.str "hi")] rfl

/-- C7 counterexample: the same SSE bytes, holding one complete event,
dispatch that event when delivered as one chunk but dispatch nothing when
delivered as two chunks split at a line boundary — the parser state is
declared inside the chunk loop, so a pending event type is forgotten
between chunks. -/
theorem C7_counterexample :
    procChunks [] ["event: status\ndata: hi\n".toList, "\n".toList] = ([], false) ∧
    streamQuery (.stream ["event: status\ndata: hi\n".toList, "\n".toList]) =
      ([], .resolved) ∧
    streamQuery (.stream [("event: status\ndata: hi\n" ++ "\n").toList]) =
      ([("status", JValue.str "hi")], .resolved) :=
  ⟨rfl, rfl, rfl⟩

theorem procChunks_render (es : List (List Char × List Char))
    (h : ∀ p ∈ es, p.1 ≠ [] ∧ trimL p.1 = p.1 ∧ p.1 ≠ doneL ∧ p.2 ≠ [] ∧
      '\n' ∉ p.1 ∧ '\n' ∉ p.2) :
    procChunks [] [renderStreamL es] =
      (es.map (fun p => (String.mk p.1, jsonOrStr p.2)), false) := by
  simp only [procChunks]
  rw [List.nil_append,
    splitNlL_renderStream es (fun p hp => ⟨(h p hp).2.2.2.2.1, (h p hp).2.2.2.2.2⟩)]
  rw [List.dropLast_concat]
  rw [procLines_render es
    (fun p hp => ⟨(h p hp).1, (h p hp).2.1, (h p hp).2.2.1, (h p hp).2.2.2.1⟩)]
  simp

/-- C7 amended: dispatched events always preserve stream order (and `done`
cuts the stream, see C2); when the entire stream arrives in one chunk and
every event is well formed — nonempty already-trimmed name that is not
`done`, one nonempty data line — streamQuery dispatches exactly the
stream's events, in stream order. Events whose lines span a chunk boundary
can be dropped (see the counterexample). -/
theorem C7_single_chunk_order (es : List (List Char × List Char))
    (h : ∀ p ∈ es, p.1 ≠ [] ∧ trimL p.1 = p.1 ∧ p.1 ≠ doneL ∧ p.2 ≠ [] ∧
      '\n' ∉ p.1 ∧ '\n' ∉ p.2) :
    streamQuery (.stream [renderStreamL es]) =
      (es.map (fun p => (String.mk p.1, jsonOrStr p.2)), .resolved) := by
  simp only [streamQuery]
  rw [procChunks_render es h]

/-- Witness for C7 (amended): a concrete two-event stream delivered in one
chunk dispatches both events in order. -/
theorem C7_single_chunk_order_witness :
    streamQuery (.stream [renderStreamL
        [(['s', 'q', 'l'], ['1']), (['s', 'u', 'm', 'm', 'a', 'r', 'y'], ['2'])]]) =
      ([("sql", JValue.num 1), ("summary", JValue.num 2)], .resolved) :=
  (C7_single_chunk_order
    [(['s', 'q', 'l'], ['1']), (['s', 'u', 'm', 'm', 'a', 'r', 'y'], ['2'])]
    (by decide)).trans rfl

theorem applyEvent_sql (st : ChatState) (p : JValue) :
    applyEvent st ("sql", p) =
      { st with msg := { st.msg with sql_code := p }, lastSql := some p } := rfl

theorem applyEvent_preserves_sql (st : ChatState) (e : String × JValue)
    (h : e.1 ≠ "sql") :
    (applyEvent st e).msg.sql_code = st.msg.sql_code ∧
    (applyEvent st e).lastSql = st.lastSql := by
  unfold applyEvent
  by_cases h1 : e.1 = "status"
  · rw [if_pos h1]
    exact ⟨rfl, rfl⟩
  rw [if_neg h1]
  by_cases h2 : e.1 = "model"
  · rw [if_pos h2]
    exact ⟨rfl, rfl⟩
  rw [if_neg h2]
  by_cases h3 : e.1 = "thought"
  · rw [if_pos h3]
    exact ⟨rfl, rfl⟩
  rw [if_neg h3, if_neg h]
  by_cases h5 : e.1 = "table"
  · rw [if_pos h5]
    exact ⟨rfl, rfl⟩
  rw [if_neg h5]
  by_cases h6 : e.1 = "suggestions"
  · rw [if_pos h6]
    exact ⟨rfl, rfl⟩
  rw [if_neg h6]
  by_cases h7 : e.1 = "summary"
  · rw [if_pos h7]
    exact ⟨rfl, rfl⟩
  rw [if_neg h7]
  by_cases h8 : e.1 = "error"
  · rw [if_pos h8]
    exact ⟨rfl, rfl⟩
  rw [if_neg h8]
  by_cases h9 : e.1 = "done"
  · rw [if_pos h9]
    exact ⟨rfl, rfl⟩
  rw [if_neg h9]
  exact ⟨rfl, rfl⟩

theorem lastSqlPayload_concat_sql (es : List (String × JValue)) (p : JValue) :
    lastSqlPayload (es ++ [("sql", p)]) = some p := by
  unfold lastSqlPayload
  rw [List.filter_append, List.map_append]
  simp

theorem lastSqlPayload_concat_other (es : List (String × JValue))
    (e : String × JValue) (h : e.1 ≠ "sql") :
    lastSqlPayload (es ++ [e]) = lastSqlPayload es := by
  unfold lastSqlPayload
  rw [List.filter_append]
  simp [List.filter, h]

theorem foldl_lastSql (es : List (String × JValue)) :
    ∀ (st : ChatState) (v : JValue),
      lastSqlPayload es = some v →
      (es.foldl applyEvent st).msg.sql_code = v ∧
      (es.foldl applyEvent st).lastSql = some v := by
  induction es using List.reverseRecOn with
  | nil =>
    intro st v hv
    simp [lastSqlPayload] at hv
  | append_singleton es e ih =>
    intro st v hv
    rw [List.foldl_append]
    simp only [List.foldl_cons, List.foldl_nil]
    by_cases he : e.1 = "sql"
    · obtain ⟨n, p⟩ := e
      have he2 : n = "sql" := he
      subst he2
      rw [lastSqlPayload_concat_sql] at hv
      injection hv with hv2
      subst hv2
      rw [applyEvent_sql]
      exact ⟨rfl, rfl⟩
    · rw [lastSqlPayload_concat_other es e he] at hv
      obtain ⟨ih1, ih2⟩ := ih st v hv
      obtain ⟨p1, p2⟩ := applyEvent_preserves_sql (es.foldl applyEvent st) e he
      exact ⟨p1.trans ih1, p2.trans ih2⟩

/-- C5: in a run whose first attempt is guard-rejected and whose second is
accepted and succeeds, the engine uses exactly 2 attempts and the last
emitted `sql` event carries the second attempt's text; and in the client,
after folding any dispatched event sequence containing at least one `sql`
event, the message's `sql_code` and the stored `lastSql` both equal the
payload of the most recent `sql` event. -/
theorem C5_last_sql_wins :
    (∀ (check : String → Verdict) (r : Nat) (t1 t2 q1 q2 re : String)
        (e1 : ExecRes) (s1 : Option (List String)) (cols : List String)
        (rows : List (List String)) (sg : Option (List String))
        (rest : List AttemptData),
        check q1 = .rejected re → check q2 = .allowed →
        (sqlEventsOf (runEngine check (r + 1)
            (⟨.ok t1 (some q1), e1, s1⟩ ::
              ⟨.ok t2 (some q2), .success cols rows, sg⟩ :: rest)).events).getLast? =
          some q2 ∧
        (runEngine check (r + 1)
            (⟨.ok t1 (some q1), e1, s1⟩ ::
              ⟨.ok t2 (some q2), .success cols rows, sg⟩ :: rest)).attemptsUsed = 2) ∧
    (∀ (es : List (String × JValue)) (st : ChatState) (v : JValue),
        lastSqlPayload es = some v →
        (es.foldl applyEvent st).msg.sql_code = v ∧
        (es.foldl applyEvent st).lastSql = some v) := by
  constructor
  · intro check r t1 t2 q1 q2 re e1 s1 cols rows sg rest hc1 hc2
    constructor
    · simp only [runEngine, hc1, hc2]
      cases sg <;> simp [sqlEventsOf]
    · simp only [runEngine, hc1, hc2]
  · exact foldl_lastSql

/-- Witness for C5: a concrete rejected-then-accepted run ends on the
second SQL, and a concrete dispatched sequence with two sql events leaves
the second one in the message state. -/
theorem C5_last_sql_wins_witness :
    ((sqlEventsOf (runEngine (SqlGuard.check ["artists"]) 2
        (⟨.ok "try drop" (some "DROP TABLE artists"), .failure true "x", none⟩ ::
          ⟨.ok "fixed" (some "SELECT name FROM artists"),
            .success ["name"] [["AC/DC"]], some []⟩ :: [])).events).getLast? =
      some "SELECT name FROM artists") ∧
    (([("sql", JValue.str "SELECT 1"), ("sql", JValue.str "SELECT 2")].foldl
        applyEvent initChatState).msg.sql_code = JValue.str "SELECT 2") := by
  constructor
  · exact (C5_last_sql_wins.1 (SqlGuard.check ["artists"]) 1 "try drop" "fixed"
      "DROP TABLE artists" "SELECT name FROM artists"
      "statement must start with SELECT, WITH or EXPLAIN, got DROP"
      (.failure true "x") none ["name"] [["AC/DC"]] (some []) [] rfl rfl).1
  · exact (C5_last_sql_wins.2 [("sql", JValue.str "SELECT 1"),
      ("sql", JValue.str "SELECT 2")] initChatState (JValue.str "SELECT 2") rfl).1

/-- C6 counterexample: a `table` payload shaped as the spec says —
`{columns, rows}` — leaves the message's result rows EMPTY, because the
reducer reads the payload field `results`, not `rows`. The `rows` field is
present in the payload yet ignored. -/
theorem C6_counterexample :
    (applyEvent initChatState
        ("table", JValue.obj [("columns", .arr [.str "name"]),
          ("rows", .arr [.arr [.str "AC/DC"]])])).msg.results = JValue.arr [] ∧
    jField (JValue.obj [("columns", .arr [.str "name"]),
        ("rows", .arr [.arr [.str "AC/DC"]])]) "rows" =
      some (.arr [.arr [.str "AC/DC"]]) := ⟨rfl, rfl⟩

/-- C6 amended: on a `table` event the client sets the message's columns
from the payload field `columns` and its result rows from the payload field
`results` (not `rows`), each defaulting to the empty list when the field is
absent or falsy. -/
theorem C6_table_reads_results_field :
    ∀ (st : ChatState) (p : JValue),
      (applyEvent st ("table", p)).msg.columns = jFieldOr p "columns" ∧
      (applyEvent st ("table", p)).msg.results = jFieldOr p "results" ∧
      (jField p "results" = none →
        (applyEvent st ("table", p)).msg.results = JValue.arr []) ∧
      (∀ res, jField p "results" = some res → jTruthy res = true →
        (applyEvent st ("table", p)).msg.results = res) := by
  intro st p
  refine ⟨rfl, rfl, ?_, ?_⟩
  · intro h
    show jFieldOr p "results" = JValue.arr []
    unfold jFieldOr
    rw [h]
  · intro res h ht
    show jFieldOr p "results" = res
    unfold jFieldOr
    rw [h]
    simp [ht]

/-- Witness for C6 (amended): a payload carrying `columns` and `results`
populates both message fields. -/
theorem C6_table_reads_results_field_witness :
    (applyEvent initChatState
        ("table", JValue.obj [("columns", .arr [.str "name"]),
          ("results", .arr [.arr [.str "AC/DC"]])])).msg.results =
      JValue.arr [.arr [.str "AC/DC"]] :=
  (C6_table_reads_results_field initChatState
      (JValue.obj [("columns", .arr [.str "name"]),
        ("results", .arr [.arr [.str "AC/DC"]])])).2.2.2
    (.arr [.arr [.str "AC/DC"]]) rfl rfl

/-- C4: an analysis request with fewer than 2 rows, or whose first record
has fewer than 2 columns, fails fast with a descriptive error and never
calls the `/api/analyze` endpoint. -/
theorem C4_insufficient_data_fails_fast :
    handleAnalysis none =
      ⟨false, some "Analysis cannot be done - data is too short (need at least 2 rows)",
        none⟩ ∧
    (∀ rows : List JValue, rows.length < 2 →
      handleAnalysis (some rows) =
        ⟨false,
          some "Analysis cannot be done - data is too short (need at least 2 rows)",
          none⟩) ∧
    (∀ rows : List JValue, 2 ≤ rows.length →
      jsKeysCount (jsFirstRecord rows) < 2 →
      handleAnalysis (some rows) =
        ⟨false,
          some "Analysis cannot be done - data is too short (need at least 2 columns)",
          none⟩) := by
  refine ⟨rfl, ?_, ?_⟩
  · intro rows h
    unfold handleAnalysis
    simp only []
    rw [if_pos h]
  · intro rows h hk
    unfold handleAnalysis
    simp only []
    rw [if_neg (by omega), if_pos hk]

/-- Witness for C4: one row of two columns fails the row check; two rows of
one column fail the column check; two rows of two columns call the API. -/
theorem C4_insufficient_data_fails_fast_witness :
    (handleAnalysis (some [JValue.obj [("a", .num 1), ("b", .num 2)]])).callsApi =
      false ∧
    handleAnalysis (some [JValue.obj [("a", .num 1)], JValue.obj [("a", .num 2)]]) =
      ⟨false,
        some "Analysis cannot be done - data is too short (need at least 2 columns)",
        none⟩ := by
  constructor
  · rw [C4_insufficient_data_fails_fast.2.1
      [JValue.obj [("a", .num 1), ("b", .num 2)]] (by decide)]
  · exact C4_insufficient_data_fails_fast.2.2
      [JValue.obj [("a", .num 1)], JValue.obj [("a", .num 2)]] (by decide) (by decide)

/-- C8 counterexample: an empty-string previous SQL is non-null yet the
field is omitted from the body — JS truthiness, not a null check, guards
the assignment. -/
theorem C8_counterexample :
    (mkStreamBody "top artists" (some "") "paid").previous_sql = none ∧
    (some "" : Option String) ≠ none := ⟨rfl, by simp⟩

/-- C8 amended: the body always carries the question and the selected model
tier, and carries `previous_sql` exactly when the supplied previous SQL is
non-null and nonempty; when it is null or empty the field is absent. -/
theorem C8_body_contents :
    ∀ (q : String) (prev : Option String) (mode : String),
      (mkStreamBody q prev mode).question = q ∧
      (mkStreamBody q prev mode).llm_mode = mode ∧
      (∀ s : String, (mkStreamBody q prev mode).previous_sql = some s ↔
        prev = some s ∧ s ≠ "") := by
  intro q prev mode
  refine ⟨rfl, rfl, ?_⟩
  intro s
  cases prev with
  | none => simp [mkStreamBody]
  | some t =>
    by_cases ht : t = ""
    · subst ht
      simp only [mkStreamBody, if_pos rfl]
      simp
      exact fun h2 => h2.symm
    · simp only [mkStreamBody, if_neg ht]
      constructor
      · intro h
        injection h with h2
        subst h2
        exact ⟨rfl, ht⟩
      · intro ⟨h1, h2⟩
        injection h1 with h3
        subst h3
        rfl

/-- Witness for C8 (amended): with a nonempty previous SQL the field is
present and equal to it. -/
theorem C8_body_contents_witness :
    (mkStreamBody "top artists" (some "SELECT 1") "free").previous_sql =
      some "SELECT 1" :=
  ((C8_body_contents "top artists" (some "SELECT 1") "free").2.2
    "SELECT 1").mpr ⟨rfl, by simp⟩

theorem jsSetKey_append (fs : List (String × Cell)) (k : String) (v : Cell)
    (h : ∀ p ∈ fs, p.1 ≠ k) : jsSetKey fs k v = fs ++ [(k, v)] := by
  unfold jsSetKey
  rw [if_neg]
  simp only [List.any_eq_true, decide_eq_true_eq, not_exists]
  intro p hp
  exact h p hp.1 hp.2

theorem rowToRecordAux_spec (row : List String) (cols : List String) :
    ∀ (i : Nat) (acc : List (String × Cell)), cols.Nodup →
      (∀ c ∈ cols, ∀ p ∈ acc, p.1 ≠ c) →
      rowToRecordAux row cols i acc =
        acc ++ (List.enumFrom i cols).map
          (fun p => (p.2, convertCell (row.getD p.1 ""))) := by
  induction cols with
  | nil =>
    intro i acc _ _
    simp [rowToRecordAux]
  | cons c cs ih =>
    intro i acc hnd hfresh
    rw [show rowToRecordAux row (c :: cs) i acc =
          rowToRecordAux row cs (i + 1) (jsSetKey acc c (convertCell (row.getD i "")))
        from rfl]
    rw [jsSetKey_append acc c _ (fun p hp => hfresh c (by simp) p hp)]
    rw [ih (i + 1) (acc ++ [(c, convertCell (row.getD i ""))])
      (List.nodup_cons.mp hnd).2 ?_]
    · simp [List.enumFrom]
    · intro c2 hc2 p hp
      rcases List.mem_append.mp hp with hpa | hpb
      · exact hfresh c2 (by simp [hc2]) p hpa
      · have hpc : p = (c, convertCell (row.getD i "")) := by simpa using hpb
        subst hpc
        intro hcc
        have hcc2 : c = c2 := hcc
        exact (List.nodup_cons.mp hnd).1 (hcc2 ▸ hc2)

/-- C10: handleDeepAnalysis returns without invoking anything when there
are no result rows or no callback; otherwise it invokes the callback with
one record per row, and (for duplicate-free columns) each record maps the
i-th column name to the converted i-th cell — parseFloat's value when the
cell parses to a non-NaN number with nonempty trimmed text, the original
string otherwise. -/
theorem C10_deep_analysis_records :
    (∀ (cols : List String) (cb : Bool) (q : Option String),
        handleDeepAnalysis none cols cb q = none) ∧
    (∀ (cols : List String) (cb : Bool) (q : Option String),
        handleDeepAnalysis (some []) cols cb q = none) ∧
    (∀ (rows : List (List String)) (cols : List String) (q : Option String),
        handleDeepAnalysis (some rows) cols false q = none) ∧
    (∀ (rows : List (List String)) (cols : List String) (q : Option String),
        rows ≠ [] →
        handleDeepAnalysis (some rows) cols true q =
          some (rows.map (rowToRecord cols), q.getD "")) ∧
    (∀ (cols : List String) (row : List String), cols.Nodup →
        rowToRecord cols row =
          cols.enum.map (fun p => (p.2, convertCell (row.getD p.1 "")))) := by
  refine ⟨fun _ _ _ => rfl, fun _ _ _ => rfl, ?_, ?_, ?_⟩
  · intro rows cols q
    unfold handleDeepAnalysis
    simp
  · intro rows cols q hne
    unfold handleDeepAnalysis
    simp [hne]
  · intro cols row hnd
    unfold rowToRecord
    rw [rowToRecordAux_spec row cols 0 [] hnd (by simp)]
    simp [List.enum]

/-- Witness for C10: two rows over columns `name`,`sales`; the numeric
text converts to the parsed number, the non-numeric one stays a string. -/
theorem C10_deep_analysis_records_witness :
    handleDeepAnalysis (some [["AC/DC", "3.5"], ["x", "n/a"]])
        ["name", "sales"] true (some "top sales") =
      some ([[("name", Cell.str "AC/DC"), ("sales", Cell.num (.finite (mkRat 7 2)))],
        [("name", Cell.str "x"), ("sales", Cell.str "n/a")]], "top sales") := by
  rw [(C10_deep_analysis_records).2.2.2.1 [["AC/DC", "3.5"], ["x", "n/a"]]
    ["name", "sales"] (some "top sales") (by simp)]
  simp only [List.map_cons, List.map_nil]
  rw [(C10_deep_analysis_records).2.2.2.2 ["name", "sales"] ["AC/DC", "3.5"]
    (by decide)]
  rw [(C10_deep_analysis_records).2.2.2.2 ["name", "sales"] ["x", "n/a"]
    (by decide)]
  decide
